import Mathlib

set_option maxRecDepth 8000

namespace Ubergrid

/-- Decidable equality for Except results, used to evaluate the embedded
functions on concrete inputs. -/
instance exceptDecEq {ε α : Type} [DecidableEq ε] [DecidableEq α] :
    DecidableEq (Except ε α) := fun
  | .error e, .error f =>
    match decEq e f with
    | isTrue h => isTrue (by rw [h])
    | isFalse h => isFalse (by intro hh; injection hh; contradiction)
  | .error _, .ok _ => isFalse (by intro h; injection h)
  | .ok _, .error _ => isFalse (by intro h; injection h)
  | .ok a, .ok b =>
    match decEq a b with
    | isTrue h => isTrue (by rw [h])
    | isFalse h => isFalse (by intro hh; injection hh; contradiction)

/-- Value type for result-record entries: numbers (times, scores and record
counts, modelled as rationals), strings (file paths, column names), and lists
of numbers (the per-fold lists produced by cross validation). -/
inductive PyVal where
  | num : ℚ → PyVal
  | str : String → PyVal
  | vlist : List ℚ → PyVal
  deriving DecidableEq, Repr

/-- Exceptions raised by the embedded code paths of ubergrid_core.py. -/
inductive PyError where
  | invalidMetric : List String → PyError
  | zeroDivision : PyError
  | kfoldValue : PyError
  deriving DecidableEq, Repr

/-- Observable effects of a job, recorded in execution order: applying the
parameter combination, a call to estimator.fit, one scoring call, and the two
file writes of a job. -/
inductive Eff where
  | setParams : Eff
  | fit : Eff
  | score : String → Eff
  | writeModel : String → Eff
  | writeResults : String → Eff
  deriving DecidableEq, Repr

/-- Keys of an association-list dictionary, in insertion order. -/
def keysOf (d : List (String × α)) : List String := d.map Prod.fst

/-- Python dict assignment d[k] = v: overwrite in place when the key exists,
append at the end otherwise. -/
def dinsert (d : List (String × α)) (k : String) (v : α) : List (String × α) :=
  if k ∈ keysOf d then d.map (fun p => if p.1 = k then (p.1, v) else p)
  else d ++ [(k, v)]

/-- Python dict-literal update of a with the entries of b, in order (later
entries overwrite earlier ones on key collision). -/
def pyUnion (a b : List (String × α)) : List (String × α) :=
  b.foldl (fun d p => dinsert d p.1 p.2) a

/-- First-occurrence deduplication with an explicit seen accumulator. -/
def pyDedupAux (seen : List String) : List String → List String
  | [] => []
  | k :: ks => if k ∈ seen then pyDedupAux seen ks else k :: pyDedupAux (k :: seen) ks

/-- First-occurrence deduplication of a list of keys; models building a Python
set from a list, keeping only membership relevant. -/
def pyDedup (l : List String) : List String := pyDedupAux [] l

/-- AVAILABLE_METRICS (ubergrid_core.py lines 24-42). -/
def AVAILABLE_METRICS : List String :=
  ["accuracy", "f1", "recall", "precision", "log_loss", "roc_auc",
   "average_precision", "f1_micro", "f1_macro", "precision_micro",
   "precision_macro", "recall_micro", "recall_macro",
   "neg_mean_absolute_error", "neg_mean_squared_error",
   "neg_median_absolute_error", "r2"]

/-- The unrecognized metric names: set(metrics) - AVAILABLE_METRICS
(ubergrid_core.py line 85), as a list with first-occurrence order. -/
def unavailableMetrics (metrics : List String) : List String :=
  pyDedup (metrics.filter (fun m => decide (m ∉ AVAILABLE_METRICS)))

/-- _evaluate_model (ubergrid_core.py lines 49-113).  External collaborators
are abstracted: score m is the value SCORERS[m](estimator, X, y) returns on
this model and dataset, time j is the wall-clock duration of the j-th scoring
call, nRecords is X.shape[0].  Returns the results dict or the raised
exception, paired with the scoring calls performed (in order).  The metric
check on lines 85-90 runs before any scoring; with an empty metric list the
final division sum(predict_times) / len(predict_times) on line 110 raises
ZeroDivisionError. -/
def evaluate_model (metrics : List String) (score : String → ℚ) (time : ℕ → ℚ)
    (nRecords : ℕ) (pfx : String) :
    Except PyError (List (String × ℚ)) × List Eff :=
  let bad := unavailableMetrics metrics
  if bad = [] then
    let d := metrics.foldl (fun d m => dinsert d (pfx ++ "_" ++ m) (score m)) []
    let predict_times := (List.range metrics.length).map time
    if metrics.length = 0 then (.error .zeroDivision, metrics.map Eff.score)
    else
      let d := dinsert d (pfx ++ "_total_prediction_time")
        (predict_times.sum / (metrics.length : ℚ))
      let d := dinsert d (pfx ++ "_total_prediction_records") ((nRecords : ℚ))
      (.ok d, metrics.map Eff.score)
  else (.error (.invalidMetric bad), [])

example :
    (evaluate_model ["accuracy", "bogus"] (fun _ => 1) (fun _ => 1) 5 "training").1
      = .error (.invalidMetric ["bogus"]) := by decide

example :
    (evaluate_model ["accuracy", "f1"] (fun _ => 1/2) (fun j => j + 1) 5 "training")
      = (.ok [("training_accuracy", 1/2), ("training_f1", 1/2),
              ("training_total_prediction_time", 3/2),
              ("training_total_prediction_records", 5)],
         [Eff.score "accuracy", Eff.score "f1"]) := by
  simp [evaluate_model, unavailableMetrics, pyDedup, pyDedupAux, dinsert, keysOf,
    List.range_succ]
  norm_num

example :
    evaluate_model [] (fun _ => 1) (fun _ => 1) 5 "validation"
      = (.error .zeroDivision, []) := by decide

/-- _train_model (ubergrid_core.py lines 115-151): estimator.fit runs first
(line 145), then _evaluate_model on the same training split with the
"training" field-name prefix (line 148), then training_time_total is added.
fitTime is the measured fit duration fit_end - fit_start. -/
def train_model (metrics : List String) (score : String → ℚ) (time : ℕ → ℚ)
    (nRecords : ℕ) (fitTime : ℚ) :
    Except PyError (List (String × ℚ)) × List Eff :=
  match evaluate_model metrics score time nRecords "training" with
  | (.error e, tr) => (.error e, Eff.fit :: tr)
  | (.ok d, tr) => (.ok (dinsert d "training_time_total" fitTime), Eff.fit :: tr)

/-- The external measurements of one cross-validation fold: the fit duration
on the fold's training part, and the scoring outcomes of the two
_evaluate_model calls (on the fold training part and on the held-out part). -/
structure FoldOracle where
  fitTime : ℚ
  scoreT : String → ℚ
  timeT : ℕ → ℚ
  nTrain : ℕ
  scoreV : String → ℚ
  timeV : ℕ → ℚ
  nTest : ℕ

/-- One iteration of the fold loop of _cross_validate (ubergrid_core.py lines
222-276): estimator.fit on the fold training part (line 227), _evaluate_model
with the cross_validation_training prefix (lines 239-245), _evaluate_model
with the cross_validation prefix (lines 256-261), then the per-fold record
dict literal (lines 270-276). -/
def foldRecord (fo : FoldOracle) (metrics : List String) :
    Except PyError (List (String × ℚ)) × List Eff :=
  match evaluate_model metrics fo.scoreT fo.timeT fo.nTrain "cross_validation_training" with
  | (.error e, tr) => (.error e, Eff.fit :: tr)
  | (.ok dT, trT) =>
    match evaluate_model metrics fo.scoreV fo.timeV fo.nTest "cross_validation" with
    | (.error e, trV) => (.error e, Eff.fit :: (trT ++ trV))
    | (.ok dV, trV) =>
      (.ok (pyUnion (pyUnion
              (dinsert [] "cross_validation_training_time_total" fo.fitTime) dT) dV),
       Eff.fit :: (trT ++ trV))

/-- The fold loop of _cross_validate over the given fold indices, in order,
collecting the per-fold records; an exception in one fold propagates. -/
def cvFolds (fo : ℕ → FoldOracle) (metrics : List String) :
    List ℕ → Except PyError (List (List (String × ℚ))) × List Eff
  | [] => (.ok [], [])
  | i :: rest =>
    match foldRecord (fo i) metrics with
    | (.error e, tr) => (.error e, tr)
    | (.ok r, tr) =>
      match cvFolds fo metrics rest with
      | (.error e, tr2) => (.error e, tr ++ tr2)
      | (.ok rs, tr2) => (.ok (r :: rs), tr ++ tr2)

/-- toolz.merge_with(identity, *dicts) (ubergrid_core.py line 279): one entry
per key (first-appearance order across the dicts), holding the list of that
key's values in the dicts that contain it, in dict order. -/
def merge_with_identity (ds : List (List (String × ℚ))) : List (String × List ℚ) :=
  (pyDedup (ds.flatMap (fun d => keysOf d))).map
    (fun k => (k, ds.filterMap (fun d => List.lookup k d)))

/-- The merged cross-validation results dict (ubergrid_core.py lines 280-285):
the keymap view appending the _all suffix to each key of the merged dict,
updated with the valmap view mapping each key to the mean of its list. -/
def cv_aggregate (merged : List (String × List ℚ)) : List (String × PyVal) :=
  pyUnion (merged.map (fun p => (p.1 ++ "_all", PyVal.vlist p.2)))
    (merged.map (fun p => (p.1, PyVal.num (p.2.sum / (p.2.length : ℚ)))))

/-- _cross_validate (ubergrid_core.py lines 153-287).  KFold(n_splits=K)
raises ValueError when K < 2 (line 221); otherwise the fold loop runs over
the K folds KFold yields, then the per-fold records are merged (line 279) and
aggregated into the _all lists and the means (lines 280-285).  The fold
contents only influence the run through the per-fold oracle. -/
def cross_validate (K : ℕ) (fo : ℕ → FoldOracle) (metrics : List String) :
    Except PyError (List (String × PyVal)) × List Eff :=
  if K < 2 then (.error .kfoldValue, [])
  else
    match cvFolds fo metrics (List.range K) with
    | (.error e, tr) => (.error e, tr)
    | (.ok rs, tr) => (.ok (cv_aggregate (merge_with_identity rs)), tr)

def foldOracle0 : FoldOracle :=
  { fitTime := 1, scoreT := fun _ => 1, timeT := fun _ => 1, nTrain := 4,
    scoreV := fun _ => 0, timeV := fun _ => 1, nTest := 2 }

example :
    (cross_validate 2 (fun _ => foldOracle0) ["bogus"]).1
      = .error (.invalidMetric ["bogus"]) := by decide

example :
    (cross_validate 2 (fun _ => foldOracle0) ["bogus"]).2 = [Eff.fit] := by decide

/-- The external measurements of one whole job: the per-fold cross-validation
oracles, the main training fit duration and scoring outcomes, and the
validation-set scoring outcomes. -/
structure JobOracle where
  cvFold : ℕ → FoldOracle
  fitTime : ℚ
  scoreTrain : String → ℚ
  timeTrain : ℕ → ℚ
  nTrain : ℕ
  scoreVal : String → ℚ
  timeVal : ℕ → ℚ
  nVal : ℕ

/-- output_dir/model_{model_id}.pkl (ubergrid_core.py line 383). -/
def model_file (output_dir : String) (model_id : ℕ) : String :=
  output_dir ++ ("/model_" ++ (toString model_id ++ ".pkl"))

/-- output_dir/results_{model_id}.json (ubergrid_core.py line 384). -/
def results_file (output_dir : String) (model_id : ℕ) : String :=
  output_dir ++ ("/results_" ++ (toString model_id ++ ".json"))

/-- Lift a dict of rational values into the result-record value type. -/
def liftQ (d : List (String × ℚ)) : List (String × PyVal) :=
  d.map (fun p => (p.1, PyVal.num p.2))

/-- A file write: joblib.dump or open(...,w) creates the file if absent. -/
def fsAdd (fs : List String) (f : String) : List String :=
  if f ∈ fs then fs else fs ++ [f]

/-- _train_and_evaluate (ubergrid_core.py lines 289-465), over an abstract
file system fs (the list of existing files).  Line 387: if the results file
already exists the job returns at once.  Line 392: estimator.set_params.
Lines 396-403: _cross_validate when a fold count is configured.  Lines
408-409: _train_model.  Lines 422-431: _evaluate_model on the validation set
when one is configured.  Lines 441-454: the results dict literal merging
provenance, cross-validation, training and validation results and the raw
params, plus the validation file path.  Lines 457-465: joblib.dump of the
model, then the results file write, in that order.  Returns the outcome, the
effects in execution order, and the final file system. -/
def train_and_evaluate (o : JobOracle) (params : List (String × PyVal))
    (model_id : ℕ) (output_dir : String) (cross_validation : Option ℕ)
    (validation_file : Option String) (metrics : List String)
    (training_file target_col : String) (fs : List String) :
    Except PyError Unit × List Eff × List String :=
  let mf := model_file output_dir model_id
  let rf := results_file output_dir model_id
  if rf ∈ fs then (.ok (), [], fs)
  else
    let cvStep : Except PyError (List (String × PyVal)) × List Eff :=
      match cross_validation with
      | none => (.ok [], [])
      | some K => cross_validate K o.cvFold metrics
    match cvStep with
    | (.error e, tr) => (.error e, Eff.setParams :: tr, fs)
    | (.ok cv_results, trCV) =>
      match train_model metrics o.scoreTrain o.timeTrain o.nTrain o.fitTime with
      | (.error e, tr) => (.error e, Eff.setParams :: (trCV ++ tr), fs)
      | (.ok training_results, trT) =>
        let valStep : Except PyError (List (String × ℚ)) × List Eff :=
          match validation_file with
          | some _ => evaluate_model metrics o.scoreVal o.timeVal o.nVal "validation"
          | none => (.ok [], [])
        match valStep with
        | (.error e, tr) => (.error e, Eff.setParams :: (trCV ++ trT ++ tr), fs)
        | (.ok validation_results, trV) =>
          let results0 : List (String × PyVal) :=
            [("training_file", .str training_file), ("target", .str target_col),
             ("model_file", .str mf), ("model_id", .num (model_id : ℚ))]
          let results1 :=
            pyUnion (pyUnion (pyUnion (pyUnion results0 cv_results)
              (liftQ training_results)) (liftQ validation_results)) params
          let _results :=
            match validation_file with
            | some vf => dinsert results1 "validation_file" (.str vf)
            | none => results1
          (.ok (),
           Eff.setParams :: (trCV ++ trT ++ trV)
             ++ [Eff.writeModel mf, Eff.writeResults rf],
           fsAdd (fsAdd fs mf) rf)

/-- Python enumerate, starting at the given index. -/
def enumFrom : ℕ → List α → List (ℕ × α)
  | _, [] => []
  | i, a :: as => (i, a) :: enumFrom (i + 1) as

/-- The dispatch loop of _main (ubergrid_core.py lines 750-756): run
_train_and_evaluate for every (model_id, params) pair of the enumerated grid.
The jobs are independent (each touches only files keyed by its own model id),
so the parallel dispatch is modelled by running them in enumeration order;
the first exception propagates. -/
def dispatchAux (o : ℕ → JobOracle) (output_dir : String)
    (cross_validation : Option ℕ) (validation_file : Option String)
    (metrics : List String) (training_file target_col : String) :
    List (ℕ × List (String × PyVal)) → List String →
    Except PyError Unit × List Eff × List String
  | [], fs => (.ok (), [], fs)
  | (i, ps) :: rest, fs =>
    match train_and_evaluate (o i) ps i output_dir cross_validation
        validation_file metrics training_file target_col fs with
    | (.error e, tr, fs1) => (.error e, tr, fs1)
    | (.ok _, tr, fs1) =>
      match dispatchAux o output_dir cross_validation validation_file metrics
          training_file target_col rest fs1 with
      | (r, tr2, fs2) => (r, tr ++ tr2, fs2)

/-- Dispatch over the enumerated grid, ubergrid_core.py line 756:
for model_id, params in enumerate(grid). -/
def dispatchJobs (o : ℕ → JobOracle) (grid : List (List (String × PyVal)))
    (output_dir : String) (cross_validation : Option ℕ)
    (validation_file : Option String) (metrics : List String)
    (training_file target_col : String) (fs : List String) :
    Except PyError Unit × List Eff × List String :=
  dispatchAux o output_dir cross_validation validation_file metrics
    training_file target_col (enumFrom 0 grid) fs

/-- The file system reached after a prefix of a job's effects: the two write
effects create their files, nothing else touches the file system. -/
def filesAfter (fs : List String) : List Eff → List String
  | [] => fs
  | e :: rest =>
    match e with
    | .writeModel f => filesAfter (fsAdd fs f) rest
    | .writeResults f => filesAfter (fsAdd fs f) rest
    | _ => filesAfter fs rest

/-- Parameter values appearing in a grid definition. -/
inductive PV where
  | int : ℤ → PV
  | str : String → PV
  deriving DecidableEq, Repr

/-- Python string comparison: lexicographic on the code points. -/
def charListLt : List Char → List Char → Bool
  | [], [] => false
  | [], _ :: _ => true
  | _ :: _, [] => false
  | a :: as, b :: bs =>
    if a.val < b.val then true else if b.val < a.val then false else charListLt as bs

def pyStrLt (a b : String) : Bool := charListLt a.data b.data

/-- Insert one (name, values) item into a key-sorted item list, keeping it
sorted: items already strictly below the new key stay in front of it. -/
def insertItem (p : String × List PV) :
    List (String × List PV) → List (String × List PV)
  | [] => [p]
  | q :: rest => if pyStrLt q.1 p.1 then q :: insertItem p rest else p :: q :: rest

/-- sorted(p.items()) inside sklearn.model_selection.ParameterGrid: the
declared (name, values) items sorted by parameter name (names are distinct,
so the tuple comparison never reaches the values). -/
def sortedItems (l : List (String × List PV)) : List (String × List PV) :=
  l.foldr insertItem []

/-- itertools.product(*values) over the sorted items, paired with their keys:
the first (alphabetically smallest) parameter varies slowest, the last one
fastest; each tuple becomes a dict in sorted key order. -/
def gridProduct : List (String × List PV) → List (List (String × PV))
  | [] => [[]]
  | (k, vs) :: rest =>
    vs.flatMap (fun v => (gridProduct rest).map (fun t => (k, v) :: t))

/-- sklearn.model_selection.ParameterGrid iteration (used on ubergrid_core.py
lines 710 and 756): the ordered sequence of parameter combinations produced
for a grid definition given as (name, candidate values) items in declaration
order. -/
def parameterGrid (g : List (String × List PV)) : List (List (String × PV)) :=
  gridProduct (sortedItems g)

example :
    parameterGrid [("n", [PV.int 1, PV.int 2]), ("m", [PV.str "a", PV.str "b"])]
      = [[("m", PV.str "a"), ("n", PV.int 1)],
         [("m", PV.str "a"), ("n", PV.int 2)],
         [("m", PV.str "b"), ("n", PV.int 1)],
         [("m", PV.str "b"), ("n", PV.int 2)]] := by decide

/-- Exceptions _main can raise during its pre-flight phase: the explicit
ValueErrors of ubergrid_core.py lines 641-708, the IndexError raised on line
666 by a str.format call with two placeholders but a single argument, and the
KeyError raised on line 733 when the search params have no scoring field. -/
inductive MainError where
  | missingSearchParamsFile
  | missingTrainingFile
  | missingValidationFile
  | logFormatIndexError
  | targetNotInTraining
  | targetNotInValidation
  | columnMismatch
  | missingEstimator
  | missingParamGrid
  | keyError : String → MainError
  deriving DecidableEq, Repr

/-- Directory side effects of _main's pre-flight phase. -/
inductive MainEff where
  | mkdirOutput
  deriving DecidableEq, Repr

/-- The inputs _main reads from the outside world, abstracted to what the
pre-flight checks inspect: which files exist, the column sets of the two data
files, which fields the loaded search params contain, and the target column
name. -/
structure MainInputs where
  search_params_file_exists : Bool
  training_file_exists : Bool
  has_validation_file : Bool
  validation_file_exists : Bool
  output_dir_exists : Bool
  training_columns : List String
  validation_columns : List String
  has_estimator : Bool
  has_param_grid : Bool
  has_fit_params : Bool
  has_scoring : Bool
  target_col : String

/-- The pre-flight phase of _main (ubergrid_core.py lines 641-744), in source
order: search-params/training/validation file existence (641-659), the
output-directory branch (665-667) whose logging call on line 666 formats two
placeholders with one argument and therefore raises IndexError whenever the
directory is absent, before os.mkdir on line 667 can run; the target-column
and column-set checks (673-692); the estimator and param_grid field checks
(694-708); fit_params defaulting to an empty dict when absent (711-712); and
the grid-search-context construction (726-738) whose line 733 reads
search_params with the scoring key and raises KeyError when it is absent.
Returns the outcome paired with the directory side effects performed. -/
def main_preflight (i : MainInputs) : Except MainError Unit × List MainEff :=
  if ¬ i.search_params_file_exists then (.error .missingSearchParamsFile, [])
  else if ¬ i.training_file_exists then (.error .missingTrainingFile, [])
  else if i.has_validation_file ∧ ¬ i.validation_file_exists then
    (.error .missingValidationFile, [])
  else if ¬ i.output_dir_exists then (.error .logFormatIndexError, [])
  else if ¬ i.target_col ∈ i.training_columns then (.error .targetNotInTraining, [])
  else if i.has_validation_file ∧ ¬ i.target_col ∈ i.validation_columns then
    (.error .targetNotInValidation, [])
  else if i.has_validation_file ∧
      ¬ ((∀ c ∈ i.training_columns, c ∈ i.validation_columns) ∧
         (∀ c ∈ i.validation_columns, c ∈ i.training_columns)) then
    (.error .columnMismatch, [])
  else if ¬ i.has_estimator then (.error .missingEstimator, [])
  else if ¬ i.has_param_grid then (.error .missingParamGrid, [])
  else if ¬ i.has_scoring then (.error (.keyError "scoring"), [])
  else (.ok (), [])

/-- A fully valid input configuration, used as the base point of the concrete
scenarios below. -/
def validInputs : MainInputs :=
  { search_params_file_exists := true, training_file_exists := true,
    has_validation_file := false, validation_file_exists := false,
    output_dir_exists := true, training_columns := ["x1", "x2", "label"],
    validation_columns := [], has_estimator := true, has_param_grid := true,
    has_fit_params := true, has_scoring := true, target_col := "label" }

example : main_preflight validInputs = (.ok (), []) := by decide

/-! Generic helper lemmas about the embedded Python primitives. -/

theorem strCancelLeft {s a b : String} (h : s ++ a = s ++ b) : a = b := by
  cases s with | mk ls =>
  cases a with | mk la =>
  cases b with | mk lb =>
  simp only [String.instAppend, String.append] at h
  injection h with h2
  exact congrArg String.mk (List.append_cancel_left h2)

theorem strCancelRight {a b s : String} (h : a ++ s = b ++ s) : a = b := by
  cases s with | mk ls =>
  cases a with | mk la =>
  cases b with | mk lb =>
  simp only [String.instAppend, String.append] at h
  injection h with h2
  exact congrArg String.mk (List.append_cancel_right h2)

theorem keysOf_append (a b : List (String × α)) :
    keysOf (a ++ b) = keysOf a ++ keysOf b := List.map_append _ _ _

theorem dinsert_fresh (d : List (String × α)) (k : String) (v : α)
    (h : k ∉ keysOf d) : dinsert d k v = d ++ [(k, v)] := by
  simp [dinsert, h]

theorem pyUnion_fresh (a b : List (String × α)) (hnd : (keysOf b).Nodup)
    (hfresh : ∀ k ∈ keysOf b, k ∉ keysOf a) : pyUnion a b = a ++ b := by
  induction b generalizing a with
  | nil => simp [pyUnion]
  | cons p bs ih =>
    have hp : p.1 ∉ keysOf a := hfresh p.1 (by simp [keysOf])
    have step : pyUnion a (p :: bs) = pyUnion (dinsert a p.1 p.2) bs := rfl
    rw [step, dinsert_fresh a p.1 p.2 hp]
    have hnd' : (keysOf bs).Nodup := by
      simpa [keysOf] using hnd.of_cons
    have hfresh' : ∀ k ∈ keysOf bs, k ∉ keysOf (a ++ [(p.1, p.2)]) := by
      intro k hk
      rw [keysOf_append]
      simp only [List.mem_append]
      push_neg
      refine ⟨hfresh k (show k ∈ keysOf (p :: bs) by
        simp only [keysOf, List.map_cons]
        exact List.mem_cons_of_mem _ hk), ?_⟩
      have hkp : k ≠ p.1 := by
        intro he
        simp only [keysOf, List.map_cons, List.nodup_cons] at hnd
        exact hnd.1 (he ▸ hk)
      simp [keysOf, hkp]
    rw [ih (a ++ [(p.1, p.2)]) hnd' hfresh']
    simp

theorem mem_pyDedupAux (l : List String) :
    ∀ (seen : List String) (x : String),
      x ∈ pyDedupAux seen l ↔ x ∈ l ∧ x ∉ seen := by
  induction l with
  | nil => intro seen x; simp [pyDedupAux]
  | cons k ks ih =>
    intro seen x
    by_cases hk : k ∈ seen
    · rw [pyDedupAux, if_pos hk, ih]
      constructor
      · rintro ⟨h1, h2⟩; exact ⟨List.mem_cons_of_mem _ h1, h2⟩
      · rintro ⟨h1, h2⟩
        rcases List.mem_cons.1 h1 with he | hm
        · exact absurd (he ▸ hk) h2
        · exact ⟨hm, h2⟩
    · rw [pyDedupAux, if_neg hk]
      constructor
      · intro h
        rcases List.mem_cons.1 h with he | hm
        · exact ⟨he ▸ List.mem_cons_self _ _, he ▸ hk⟩
        · have := (ih (k :: seen) x).1 hm
          refine ⟨List.mem_cons_of_mem _ this.1, fun hs => this.2 (List.mem_cons_of_mem _ hs)⟩
      · rintro ⟨h1, h2⟩
        rcases List.mem_cons.1 h1 with he | hm
        · exact he ▸ List.mem_cons_self _ _
        · by_cases hxk : x = k
          · exact hxk ▸ List.mem_cons_self _ _
          · exact List.mem_cons_of_mem _
              ((ih (k :: seen) x).2 ⟨hm, by simp [hxk, h2]⟩)

theorem mem_pyDedup (l : List String) (x : String) :
    x ∈ pyDedup l ↔ x ∈ l := by
  rw [pyDedup, mem_pyDedupAux]; simp

theorem mem_unavailableMetrics (metrics : List String) (m : String) :
    m ∈ unavailableMetrics metrics ↔ m ∈ metrics ∧ m ∉ AVAILABLE_METRICS := by
  rw [unavailableMetrics, mem_pyDedup, List.mem_filter]
  simp

theorem unavailableMetrics_eq_nil (metrics : List String) :
    unavailableMetrics metrics = [] ↔ ∀ m ∈ metrics, m ∈ AVAILABLE_METRICS := by
  rw [List.eq_nil_iff_forall_not_mem]
  constructor
  · intro h m hm
    by_contra hna
    exact h m ((mem_unavailableMetrics metrics m).2 ⟨hm, hna⟩)
  · intro h m hmem
    have := (mem_unavailableMetrics metrics m).1 hmem
    exact this.2 (h m this.1)

theorem mem_fsAdd (fs : List String) (f x : String) :
    x ∈ fsAdd fs f ↔ x ∈ fs ∨ x = f := by
  by_cases h : f ∈ fs
  · simp only [fsAdd, if_pos h]
    constructor
    · exact fun hx => Or.inl hx
    · rintro (hx | rfl)
      · exact hx
      · exact h
  · simp [fsAdd, if_neg h]

theorem mem_enumFrom (l : List α) :
    ∀ (n : ℕ) (p : ℕ × α), p ∈ enumFrom n l → n ≤ p.1 ∧ p.1 < n + l.length := by
  induction l with
  | nil => intro n p h; simp [enumFrom] at h
  | cons a as ih =>
    intro n p h
    rw [enumFrom] at h
    rcases List.mem_cons.1 h with he | hm
    · subst he; simp
    · have h2 := ih (n + 1) p hm
      have hlen : (a :: as).length = as.length + 1 := rfl
      exact ⟨Nat.le_of_succ_le h2.1, by omega⟩

theorem lookup_cons_self (k : String) (v : α) (es : List (String × α)) :
    List.lookup k ((k, v) :: es) = some v := by
  simp [List.lookup]

theorem lookup_cons_ne (k k2 : String) (v : α) (es : List (String × α))
    (h : k ≠ k2) : List.lookup k ((k2, v) :: es) = List.lookup k es := by
  simp [List.lookup, beq_false_of_ne h]

theorem lookup_append_right (k : String) (l1 l2 : List (String × α))
    (h : k ∉ keysOf l1) : List.lookup k (l1 ++ l2) = List.lookup k l2 := by
  induction l1 with
  | nil => rfl
  | cons p ps ih =>
    have hk : k ≠ p.1 := by
      intro he
      exact h (by simp [keysOf, he])
    have hnotin : k ∉ keysOf ps := by
      intro hm
      exact h (by simp only [keysOf, List.map_cons]; exact List.mem_cons_of_mem _ hm)
    calc List.lookup k ((p :: ps) ++ l2)
        = List.lookup k ((p.1, p.2) :: (ps ++ l2)) := rfl
      _ = List.lookup k (ps ++ l2) := lookup_cons_ne _ _ _ _ hk
      _ = List.lookup k l2 := ih hnotin

theorem lookup_append_left (k : String) (l1 l2 : List (String × α)) (v : α)
    (h : List.lookup k l1 = some v) : List.lookup k (l1 ++ l2) = some v := by
  induction l1 with
  | nil => simp [List.lookup] at h
  | cons p ps ih =>
    cases p with | mk a b =>
    by_cases hk : k = a
    · subst hk
      rw [lookup_cons_self] at h
      calc List.lookup k (((k, b) :: ps) ++ l2)
          = List.lookup k ((k, b) :: (ps ++ l2)) := rfl
        _ = some b := lookup_cons_self _ _ _
        _ = some v := h
    · rw [lookup_cons_ne k a b ps hk] at h
      calc List.lookup k (((a, b) :: ps) ++ l2)
          = List.lookup k ((a, b) :: (ps ++ l2)) := rfl
        _ = List.lookup k (ps ++ l2) := lookup_cons_ne k a b _ hk
        _ = some v := ih h

theorem lookup_map_key (key : String → String) (val : String → α) (ms : List String)
    (hnd : (ms.map key).Nodup) (m : String) (hm : m ∈ ms) :
    List.lookup (key m) (ms.map (fun x => (key x, val x))) = some (val m) := by
  induction ms with
  | nil => cases hm
  | cons a as ih =>
    rcases List.mem_cons.1 hm with he | hmem
    · subst he
      calc List.lookup (key m) ((m :: as).map fun x => (key x, val x))
          = List.lookup (key m) ((key m, val m) :: as.map fun x => (key x, val x)) := rfl
        _ = some (val m) := lookup_cons_self _ _ _
    · have hne : key m ≠ key a := by
        intro he
        simp only [List.map_cons, List.nodup_cons] at hnd
        exact hnd.1 (he ▸ List.mem_map_of_mem key hmem)
      have hnd' : (as.map key).Nodup := by
        simp only [List.map_cons, List.nodup_cons] at hnd
        exact hnd.2
      calc List.lookup (key m) ((a :: as).map fun x => (key x, val x))
          = List.lookup (key m) ((key a, val a) :: as.map fun x => (key x, val x)) := rfl
        _ = List.lookup (key m) (as.map fun x => (key x, val x)) :=
            lookup_cons_ne _ _ _ _ hne
        _ = some (val m) := ih hnd' hmem

theorem lookup_mem_keys (k : String) (d : List (String × α)) (h : k ∈ keysOf d) :
    ∃ v, List.lookup k d = some v := by
  induction d with
  | nil => simp [keysOf] at h
  | cons p ps ih =>
    cases p with | mk a b =>
    by_cases hk : k = a
    · subst hk; exact ⟨b, lookup_cons_self _ _ _⟩
    · have hmem : k ∈ keysOf ps := by
        simp only [keysOf, List.map_cons, List.mem_cons] at h
        rcases h with he | hm
        · exact absurd he hk
        · exact hm
      obtain ⟨v, hv⟩ := ih hmem
      exact ⟨v, by rw [lookup_cons_ne k a b ps hk]; exact hv⟩

theorem foldl_dinsert_eq (key : String → String) (val : String → ℚ) :
    ∀ (ms : List String) (acc : List (String × ℚ)),
      (∀ m ∈ ms, key m ∉ keysOf acc) → (ms.map key).Nodup →
      ms.foldl (fun d m => dinsert d (key m) (val m)) acc
        = acc ++ ms.map (fun m => (key m, val m)) := by
  intro ms
  induction ms with
  | nil => intro acc _ _; simp
  | cons a as ih =>
    intro acc hfresh hnd
    have h1 : key a ∉ keysOf acc := hfresh a (List.mem_cons_self _ _)
    have step : (a :: as).foldl (fun d m => dinsert d (key m) (val m)) acc
        = as.foldl (fun d m => dinsert d (key m) (val m)) (dinsert acc (key a) (val a)) := rfl
    rw [step, dinsert_fresh _ _ _ h1]
    have hnd' : (as.map key).Nodup := by
      simp only [List.map_cons, List.nodup_cons] at hnd
      exact hnd.2
    have hfresh' : ∀ m ∈ as, key m ∉ keysOf (acc ++ [(key a, val a)]) := by
      intro m hm
      rw [keysOf_append]
      simp only [List.mem_append]
      push_neg
      refine ⟨hfresh m (List.mem_cons_of_mem _ hm), ?_⟩
      have hne : key m ≠ key a := by
        intro he
        simp only [List.map_cons, List.nodup_cons] at hnd
        exact hnd.1 (he ▸ List.mem_map_of_mem key hm)
      simp [keysOf, hne]
    rw [ih _ hfresh' hnd']
    simp

/-! Structure lemmas for the embedded _evaluate_model. -/

theorem evaluate_model_invalid (metrics : List String) (score : String → ℚ)
    (time : ℕ → ℚ) (nRecords : ℕ) (pfx : String)
    (h : unavailableMetrics metrics ≠ []) :
    evaluate_model metrics score time nRecords pfx
      = (.error (.invalidMetric (unavailableMetrics metrics)), []) := by
  simp [evaluate_model, h]

theorem evaluate_model_ok (metrics : List String) (score : String → ℚ)
    (time : ℕ → ℚ) (nRecords : ℕ) (pfx : String)
    (h1 : metrics ≠ []) (h2 : ∀ m ∈ metrics, m ∈ AVAILABLE_METRICS)
    (hnd : (metrics.map (fun m => pfx ++ "_" ++ m)).Nodup)
    (hk1 : ∀ m ∈ metrics, pfx ++ "_" ++ m ≠ pfx ++ "_total_prediction_time")
    (hk2 : ∀ m ∈ metrics, pfx ++ "_" ++ m ≠ pfx ++ "_total_prediction_records")
    (hk3 : pfx ++ "_total_prediction_time" ≠ pfx ++ "_total_prediction_records") :
    evaluate_model metrics score time nRecords pfx
      = (.ok (metrics.map (fun m => (pfx ++ "_" ++ m, score m))
          ++ [(pfx ++ "_total_prediction_time",
               ((List.range metrics.length).map time).sum / (metrics.length : ℚ)),
              (pfx ++ "_total_prediction_records", ((nRecords : ℚ)))]),
         metrics.map Eff.score) := by
  have hbad : unavailableMetrics metrics = [] := (unavailableMetrics_eq_nil metrics).2 h2
  have hlen : ¬ metrics.length = 0 := by
    intro h0
    exact h1 (List.eq_nil_of_length_eq_zero h0)
  have hfold : metrics.foldl (fun d m => dinsert d (pfx ++ "_" ++ m) (score m)) []
      = metrics.map (fun m => (pfx ++ "_" ++ m, score m)) := by
    have h3 := foldl_dinsert_eq (fun m => pfx ++ "_" ++ m) score metrics []
      (by intro m _; simp [keysOf]) hnd
    simpa using h3
  have hmemkeys : ∀ k, k ∈ keysOf (metrics.map (fun m => (pfx ++ "_" ++ m, score m)))
      → ∃ m ∈ metrics, pfx ++ "_" ++ m = k := by
    intro k hk
    simp only [keysOf, List.map_map, List.mem_map, Function.comp] at hk
    obtain ⟨m, hm, he⟩ := hk
    exact ⟨m, hm, he⟩
  have hins1 : dinsert (metrics.map (fun m => (pfx ++ "_" ++ m, score m)))
      (pfx ++ "_total_prediction_time")
      (((List.range metrics.length).map time).sum / (metrics.length : ℚ))
      = metrics.map (fun m => (pfx ++ "_" ++ m, score m))
        ++ [(pfx ++ "_total_prediction_time",
             ((List.range metrics.length).map time).sum / (metrics.length : ℚ))] := by
    apply dinsert_fresh
    intro hk
    obtain ⟨m, hm, he⟩ := hmemkeys _ hk
    exact hk1 m hm he
  have hins2 : dinsert (metrics.map (fun m => (pfx ++ "_" ++ m, score m))
        ++ [(pfx ++ "_total_prediction_time",
             ((List.range metrics.length).map time).sum / (metrics.length : ℚ))])
      (pfx ++ "_total_prediction_records") ((nRecords : ℚ))
      = metrics.map (fun m => (pfx ++ "_" ++ m, score m))
        ++ [(pfx ++ "_total_prediction_time",
             ((List.range metrics.length).map time).sum / (metrics.length : ℚ)),
            (pfx ++ "_total_prediction_records", ((nRecords : ℚ)))] := by
    rw [dinsert_fresh]
    · simp
    · rw [keysOf_append]
      simp only [List.mem_append]
      push_neg
      constructor
      · intro hk
        obtain ⟨m, hm, he⟩ := hmemkeys _ hk
        exact hk2 m hm he
      · simp [keysOf]
        exact fun he => hk3 he.symm
  simp only [evaluate_model, hbad, if_pos, hfold, if_neg hlen, hins1, hins2]

theorem key_inj (pfx m m2 : String) (h : pfx ++ "_" ++ m = pfx ++ "_" ++ m2) :
    m = m2 := strCancelLeft h

theorem avail_not_special : ∀ m ∈ AVAILABLE_METRICS,
    m ≠ "total_prediction_time" ∧ m ≠ "total_prediction_records" := by decide

theorem key_ne_time (pfx m : String) (hm : m ∈ AVAILABLE_METRICS) :
    pfx ++ "_" ++ m ≠ pfx ++ "_total_prediction_time" := by
  intro h
  have h2 : pfx ++ "_" ++ m = pfx ++ "_" ++ "total_prediction_time" := by
    rw [h, String.append_assoc]
    rfl
  exact (avail_not_special m hm).1 (key_inj _ _ _ h2)

theorem key_ne_records (pfx m : String) (hm : m ∈ AVAILABLE_METRICS) :
    pfx ++ "_" ++ m ≠ pfx ++ "_total_prediction_records" := by
  intro h
  have h2 : pfx ++ "_" ++ m = pfx ++ "_" ++ "total_prediction_records" := by
    rw [h, String.append_assoc]
    rfl
  exact (avail_not_special m hm).2 (key_inj _ _ _ h2)

theorem time_ne_records (pfx : String) :
    pfx ++ "_total_prediction_time" ≠ pfx ++ "_total_prediction_records" := by
  intro h
  have h2 : ("_total_prediction_time" : String) = "_total_prediction_records" :=
    strCancelLeft h
  exact absurd h2 (by decide)

theorem metric_keys_nodup (pfx : String) (metrics : List String)
    (h3 : metrics.Nodup) :
    (metrics.map (fun m => pfx ++ "_" ++ m)).Nodup :=
  h3.map_on (fun x _ y _ h => key_inj pfx x y h)

/-- C10: with an empty requested metric list, _evaluate_model passes the
availability check vacuously, performs no scoring call, and the final
division sum(predict_times) / len(predict_times) raises ZeroDivisionError
instead of returning a results mapping. -/
theorem evaluator_empty_metrics_division_by_zero (score : String → ℚ)
    (time : ℕ → ℚ) (nRecords : ℕ) (pfx : String) :
    evaluate_model [] score time nRecords pfx = (.error .zeroDivision, []) := rfl

/-- C6: whenever the requested metric set contains a name outside
AVAILABLE_METRICS, _evaluate_model raises the invalid-metric ValueError
before performing any scoring call (the effect list is empty), and the error
carries exactly the set of all unrecognized names, not just the first. -/
theorem evaluator_invalid_metric_lists_all_before_scoring
    (metrics : List String) (score : String → ℚ) (time : ℕ → ℚ)
    (nRecords : ℕ) (pfx : String)
    (h : ∃ m ∈ metrics, m ∉ AVAILABLE_METRICS) :
    evaluate_model metrics score time nRecords pfx
      = (.error (.invalidMetric (unavailableMetrics metrics)), [])
    ∧ unavailableMetrics metrics ≠ []
    ∧ (∀ m, m ∈ unavailableMetrics metrics ↔ m ∈ metrics ∧ m ∉ AVAILABLE_METRICS) := by
  obtain ⟨m, hm, hna⟩ := h
  have hne : unavailableMetrics metrics ≠ [] := by
    intro he
    exact hna (((unavailableMetrics_eq_nil metrics).1 he) m hm)
  exact ⟨evaluate_model_invalid _ _ _ _ _ hne, hne,
    fun m2 => mem_unavailableMetrics _ _⟩

theorem evaluator_invalid_metric_witness :
    (∃ m ∈ ["accuracy", "bogus", "nope"], m ∉ AVAILABLE_METRICS) ∧
    evaluate_model ["accuracy", "bogus", "nope"] (fun _ => 1) (fun _ => 1) 3 "training"
      = (.error (.invalidMetric (unavailableMetrics ["accuracy", "bogus", "nope"])), [])
    ∧ unavailableMetrics ["accuracy", "bogus", "nope"] ≠ [] :=
  ⟨by decide,
   (evaluator_invalid_metric_lists_all_before_scoring _ _ _ _ "training" (by decide)).1,
   (evaluator_invalid_metric_lists_all_before_scoring
     ["accuracy", "bogus", "nope"] (fun _ => 1) (fun _ => 1) 3 "training" (by decide)).2.1⟩

/-- C7: for a trained model, a dataset, a non-empty duplicate-free supported
metric list and any field prefix, _evaluate_model returns a mapping whose
keys are exactly one prefixed entry per requested metric plus the two timing
fields; each metric entry holds its score, the total_prediction_time field
holds the arithmetic mean (sum divided by count, not the sum) of the
per-metric scoring durations, and the total_prediction_records field holds
the row count of the input dataset. -/
theorem evaluator_shape_mean_time_and_records
    (metrics : List String) (score : String → ℚ) (time : ℕ → ℚ)
    (nRecords : ℕ) (pfx : String)
    (h1 : metrics ≠ []) (h2 : ∀ m ∈ metrics, m ∈ AVAILABLE_METRICS)
    (h3 : metrics.Nodup) :
    ∃ d, evaluate_model metrics score time nRecords pfx
        = (.ok d, metrics.map Eff.score)
      ∧ keysOf d = metrics.map (fun m => pfx ++ "_" ++ m)
          ++ [pfx ++ "_total_prediction_time", pfx ++ "_total_prediction_records"]
      ∧ (keysOf d).Nodup
      ∧ (∀ m ∈ metrics, List.lookup (pfx ++ "_" ++ m) d = some (score m))
      ∧ List.lookup (pfx ++ "_total_prediction_time") d
          = some (((List.range metrics.length).map time).sum / (metrics.length : ℚ))
      ∧ List.lookup (pfx ++ "_total_prediction_records") d = some ((nRecords : ℚ)) := by
  have hnd := metric_keys_nodup pfx metrics h3
  have hk1 : ∀ m ∈ metrics, pfx ++ "_" ++ m ≠ pfx ++ "_total_prediction_time" :=
    fun m hm => key_ne_time pfx m (h2 m hm)
  have hk2 : ∀ m ∈ metrics, pfx ++ "_" ++ m ≠ pfx ++ "_total_prediction_records" :=
    fun m hm => key_ne_records pfx m (h2 m hm)
  have hk3 := time_ne_records pfx
  have hok := evaluate_model_ok metrics score time nRecords pfx h1 h2 hnd hk1 hk2 hk3
  refine ⟨_, hok, ?_, ?_, ?_, ?_, ?_⟩
  · simp [keysOf, List.map_append, List.map_map, Function.comp]
  · have hkeys : keysOf (metrics.map (fun m => (pfx ++ "_" ++ m, score m))
        ++ [(pfx ++ "_total_prediction_time",
             ((List.range metrics.length).map time).sum / (metrics.length : ℚ)),
            (pfx ++ "_total_prediction_records", ((nRecords : ℚ)))])
        = metrics.map (fun m => pfx ++ "_" ++ m)
          ++ [pfx ++ "_total_prediction_time", pfx ++ "_total_prediction_records"] := by
      simp [keysOf, List.map_append, List.map_map, Function.comp]
    rw [hkeys]
    refine List.Nodup.append hnd (by simp [hk3]) ?_
    intro x hx hmem
    obtain ⟨m, hm, he⟩ := List.mem_map.1 hx
    rcases List.mem_cons.1 hmem with he2 | he3
    · exact hk1 m hm (he.symm ▸ he2 ▸ rfl)
    · have : x = pfx ++ "_total_prediction_records" := by
        simpa using he3
      exact hk2 m hm (he.symm ▸ this ▸ rfl)
  · intro m hm
    apply lookup_append_left
    have := lookup_map_key (fun m => pfx ++ "_" ++ m) score metrics hnd m hm
    simpa using this
  · rw [lookup_append_right]
    · exact lookup_cons_self _ _ _
    · intro hmem
      simp only [keysOf, List.map_map, List.mem_map, Function.comp] at hmem
      obtain ⟨m, hm, he⟩ := hmem
      exact hk1 m hm he
  · rw [lookup_append_right]
    · rw [lookup_cons_ne _ _ _ _ (fun he => hk3 he.symm)]
      exact lookup_cons_self _ _ _
    · intro hmem
      simp only [keysOf, List.map_map, List.mem_map, Function.comp] at hmem
      obtain ⟨m, hm, he⟩ := hmem
      exact hk2 m hm he

theorem evaluator_shape_witness :
    (["accuracy", "f1"] : List String) ≠ [] ∧
    (∀ m ∈ (["accuracy", "f1"] : List String), m ∈ AVAILABLE_METRICS) ∧
    (["accuracy", "f1"] : List String).Nodup ∧
    (∃ d, evaluate_model ["accuracy", "f1"] (fun _ => 1/2) (fun _ => 1) 7 "validation"
        = (.ok d, (["accuracy", "f1"] : List String).map Eff.score)
      ∧ keysOf d = (["accuracy", "f1"] : List String).map (fun m => "validation" ++ "_" ++ m)
          ++ ["validation" ++ "_total_prediction_time",
              "validation" ++ "_total_prediction_records"]
      ∧ (keysOf d).Nodup
      ∧ (∀ m ∈ (["accuracy", "f1"] : List String),
           List.lookup ("validation" ++ "_" ++ m) d = some ((1 : ℚ)/2))
      ∧ List.lookup ("validation" ++ "_total_prediction_time") d
          = some (((List.range (["accuracy", "f1"] : List String).length).map
              (fun _ => (1 : ℚ))).sum / ((["accuracy", "f1"] : List String).length : ℚ))
      ∧ List.lookup ("validation" ++ "_total_prediction_records") d = some ((7 : ℚ))) :=
  ⟨by decide, by decide, by decide,
   evaluator_shape_mean_time_and_records ["accuracy", "f1"] (fun _ => 1/2) (fun _ => 1)
     7 "validation" (by decide) (by decide) (by decide)⟩

/-! Job Runner: skip-on-existing-results and resume behaviour. -/

theorem train_and_evaluate_skip (o : JobOracle) (params : List (String × PyVal))
    (model_id : ℕ) (output_dir : String) (cv : Option ℕ) (vf : Option String)
    (metrics : List String) (tf tc : String) (fs : List String)
    (h : results_file output_dir model_id ∈ fs) :
    train_and_evaluate o params model_id output_dir cv vf metrics tf tc fs
      = (.ok (), [], fs) := by
  simp [train_and_evaluate, h]

theorem dispatchAux_all_skip (o : ℕ → JobOracle) (output_dir : String)
    (cv : Option ℕ) (vf : Option String) (metrics : List String) (tf tc : String) :
    ∀ (jobs : List (ℕ × List (String × PyVal))) (fs : List String),
      (∀ p ∈ jobs, results_file output_dir p.1 ∈ fs) →
      dispatchAux o output_dir cv vf metrics tf tc jobs fs = (.ok (), [], fs) := by
  intro jobs
  induction jobs with
  | nil => intro fs _; rfl
  | cons j rest ih =>
    intro fs h
    cases j with | mk i ps =>
    have h1 : results_file output_dir i ∈ fs := h (i, ps) (List.mem_cons_self _ _)
    have h2 := ih fs (fun p hp => h p (List.mem_cons_of_mem _ hp))
    rw [dispatchAux, train_and_evaluate_skip (o i) ps i output_dir cv vf metrics tf tc fs h1]
    simp [h2]

/-- C1: a job whose results file already exists returns immediately with no
effects (no parameter application, no fit, no file write) and an unchanged
file system; consequently dispatching the whole enumerated grid against a
file system that already holds the results file of every model id performs
no effect at all, in particular zero training. -/
theorem job_skip_and_resume_zero_training (output_dir : String) (cv : Option ℕ)
    (vf : Option String) (metrics : List String) (tf tc : String) :
    (∀ (o : JobOracle) (params : List (String × PyVal)) (model_id : ℕ)
       (fs : List String), results_file output_dir model_id ∈ fs →
       train_and_evaluate o params model_id output_dir cv vf metrics tf tc fs
         = (.ok (), [], fs)) ∧
    (∀ (oo : ℕ → JobOracle) (grid : List (List (String × PyVal))) (fs : List String),
       (∀ i, i < grid.length → results_file output_dir i ∈ fs) →
       dispatchJobs oo grid output_dir cv vf metrics tf tc fs = (.ok (), [], fs)) := by
  constructor
  · intro o params model_id fs h
    exact train_and_evaluate_skip o params model_id output_dir cv vf metrics tf tc fs h
  · intro oo grid fs h
    rw [dispatchJobs]
    apply dispatchAux_all_skip
    intro p hp
    have h2 := mem_enumFrom grid 0 p hp
    exact h p.1 (by omega)

def oracle0 : JobOracle :=
  { cvFold := fun _ => foldOracle0, fitTime := 1, scoreTrain := fun _ => 1,
    timeTrain := fun _ => 1, nTrain := 4, scoreVal := fun _ => 0,
    timeVal := fun _ => 1, nVal := 2 }

theorem job_skip_and_resume_witness :
    (results_file "out" 0 ∈ ["out/results_0.json", "out/results_1.json"]) ∧
    (∀ i, i < ([[], []] : List (List (String × PyVal))).length →
       results_file "out" i ∈ ["out/results_0.json", "out/results_1.json"]) ∧
    train_and_evaluate oracle0 [] 0 "out" (some 3) none ["accuracy"] "t.csv" "y"
        ["out/results_0.json", "out/results_1.json"]
      = (.ok (), [], ["out/results_0.json", "out/results_1.json"]) ∧
    dispatchJobs (fun _ => oracle0) [[], []] "out" (some 3) none ["accuracy"] "t.csv" "y"
        ["out/results_0.json", "out/results_1.json"]
      = (.ok (), [], ["out/results_0.json", "out/results_1.json"]) :=
  ⟨by decide, by decide,
   (job_skip_and_resume_zero_training "out" (some 3) none ["accuracy"] "t.csv" "y").1
     oracle0 [] 0 ["out/results_0.json", "out/results_1.json"] (by decide),
   (job_skip_and_resume_zero_training "out" (some 3) none ["accuracy"] "t.csv" "y").2
     (fun _ => oracle0) [[], []] ["out/results_0.json", "out/results_1.json"] (by decide)⟩

/-! Grid enumeration order. -/

def exampleGrid : List (String × List PV) :=
  [("n", [PV.int 1, PV.int 2]), ("m", [PV.str "a", PV.str "b"])]

/-- C3 counterexample: for the grid with n declared before m, the pair at
model id 1 is (m=a, n=2), not (n=1, m=b) as the claim asserts: ParameterGrid
sorts parameter names alphabetically before taking the Cartesian product, so
the declared order n, m is not the enumeration order. -/
theorem grid_enumeration_order_cex :
    (parameterGrid exampleGrid).length = 4 ∧
    (parameterGrid exampleGrid).get? 1 = some [("m", PV.str "a"), ("n", PV.int 2)] ∧
    ((parameterGrid exampleGrid).get? 1).map (fun d => List.lookup "n" d)
      = some (some (PV.int 2)) ∧
    ((parameterGrid exampleGrid).get? 1).map (fun d => List.lookup "n" d)
      ≠ some (some (PV.int 1)) := by decide

/-- C3 amended: the grid with parameter lists n = [1, 2] and m = [a, b]
enumerates exactly 4 (model id, combination) pairs with ids 0 to 3, in
row-major order over the alphabetically sorted parameter names: id 0 =
(m=a, n=1), id 1 = (m=a, n=2), id 2 = (m=b, n=1), id 3 = (m=b, n=2). -/
theorem grid_enumeration_sorted_row_major :
    parameterGrid exampleGrid
      = [[("m", PV.str "a"), ("n", PV.int 1)],
         [("m", PV.str "a"), ("n", PV.int 2)],
         [("m", PV.str "b"), ("n", PV.int 1)],
         [("m", PV.str "b"), ("n", PV.int 2)]] ∧
    enumFrom 0 (parameterGrid exampleGrid)
      = [(0, [("m", PV.str "a"), ("n", PV.int 1)]),
         (1, [("m", PV.str "a"), ("n", PV.int 2)]),
         (2, [("m", PV.str "b"), ("n", PV.int 1)]),
         (3, [("m", PV.str "b"), ("n", PV.int 2)])] := by decide

/-! Orchestrator pre-flight behaviour. -/

theorem main_preflight_no_mkdir : ∀ j : MainInputs, (main_preflight j).2 = [] := by
  intro j
  unfold main_preflight
  split
  · rfl
  split
  · rfl
  split
  · rfl
  split
  · rfl
  split
  · rfl
  split
  · rfl
  split
  · rfl
  split
  · rfl
  split
  · rfl
  split
  · rfl
  rfl

/-- C4 amended: with the training file lacking the target column, the run
always aborts before dispatching any job and never creates the output
directory, but not the way the claim states: when the output directory
already exists the failure is the schema ValueError; when it does not exist
the run aborts earlier, inside the directory-creation branch, with the
IndexError raised by the malformed logging format call on line 666 -- not
with a schema error; os.mkdir on line 667 is unreachable, so the pre-flight
phase performs no directory side effect on any input. -/
theorem orchestrator_schema_check_after_mkdir_branch (i : MainInputs)
    (h1 : i.search_params_file_exists = true)
    (h2 : i.training_file_exists = true)
    (h3 : i.has_validation_file = true → i.validation_file_exists = true)
    (h4 : i.target_col ∉ i.training_columns) :
    (i.output_dir_exists = true →
       main_preflight i = (.error .targetNotInTraining, [])) ∧
    (i.output_dir_exists = false →
       main_preflight i = (.error .logFormatIndexError, [])) ∧
    (∀ j : MainInputs, (main_preflight j).2 = []) := by
  have hval : ¬ (i.has_validation_file ∧ ¬ i.validation_file_exists) := by
    rintro ⟨hv, hnv⟩
    exact hnv (by simp [h3 (by simpa using hv)])
  refine ⟨?_, ?_, ?_⟩
  · intro ho
    simp only [main_preflight, h1, h2, ho, h4]
    simp
    exact h3
  · intro ho
    simp only [main_preflight, h1, h2, ho, h4]
    simp
    exact h3
  · exact main_preflight_no_mkdir

def c4Inputs : MainInputs :=
  { search_params_file_exists := true, training_file_exists := true,
    has_validation_file := false, validation_file_exists := false,
    output_dir_exists := false, training_columns := ["x1", "x2"],
    validation_columns := [], has_estimator := true, has_param_grid := true,
    has_fit_params := true, has_scoring := true, target_col := "label" }

/-- C4 counterexample: a run whose training columns lack the target column
label and whose output directory does not yet exist fails with the IndexError
of the malformed line 666 format call, not with a schema-mismatch error, so
the claim that such a run fails with SchemaMismatch is false on the code. -/
theorem orchestrator_schema_mismatch_cex :
    c4Inputs.target_col ∉ c4Inputs.training_columns ∧
    main_preflight c4Inputs = (.error .logFormatIndexError, []) ∧
    (main_preflight c4Inputs).1 ≠ .error .targetNotInTraining := by decide

def c4bInputs : MainInputs :=
  { search_params_file_exists := true, training_file_exists := true,
    has_validation_file := false, validation_file_exists := false,
    output_dir_exists := true, training_columns := ["x1", "x2"],
    validation_columns := [], has_estimator := true, has_param_grid := true,
    has_fit_params := true, has_scoring := true, target_col := "label" }

theorem orchestrator_schema_check_witness :
    c4bInputs.search_params_file_exists = true ∧
    c4bInputs.training_file_exists = true ∧
    (c4bInputs.has_validation_file = true → c4bInputs.validation_file_exists = true) ∧
    c4bInputs.target_col ∉ c4bInputs.training_columns ∧
    ((c4bInputs.output_dir_exists = true →
        main_preflight c4bInputs = (.error .targetNotInTraining, [])) ∧
     (c4bInputs.output_dir_exists = false →
        main_preflight c4bInputs = (.error .logFormatIndexError, [])) ∧
     (∀ j : MainInputs, (main_preflight j).2 = [])) :=
  ⟨rfl, rfl, by decide, by decide,
   orchestrator_schema_check_after_mkdir_branch c4bInputs rfl rfl (by decide) (by decide)⟩

/-- C9 amended: the pre-flight phase only checks the estimator and param_grid
fields as required and tolerates an absent fit_params field (it defaults to
an empty dict), but scoring is effectively required: on an otherwise valid
input the run reaches dispatch exactly when scoring is present, and raises
KeyError on the scoring lookup of line 733 when it is omitted. -/
theorem orchestrator_scoring_required_fit_params_optional (i : MainInputs)
    (h1 : i.search_params_file_exists = true) (h2 : i.training_file_exists = true)
    (h3 : i.has_validation_file = false) (h4 : i.output_dir_exists = true)
    (h5 : i.target_col ∈ i.training_columns)
    (h6 : i.has_estimator = true) (h7 : i.has_param_grid = true) :
    (i.has_scoring = true → main_preflight i = (.ok (), [])) ∧
    (i.has_scoring = false → main_preflight i = (.error (.keyError "scoring"), [])) := by
  constructor <;> intro hs <;>
    simp [main_preflight, h1, h2, h3, h4, h5, h6, h7, hs]

def c9Inputs : MainInputs :=
  { search_params_file_exists := true, training_file_exists := true,
    has_validation_file := false, validation_file_exists := false,
    output_dir_exists := true, training_columns := ["x1", "x2", "label"],
    validation_columns := [], has_estimator := true, has_param_grid := true,
    has_fit_params := true, has_scoring := false, target_col := "label" }

/-- C9 counterexample: a search definition that has estimator, param_grid and
fit_params but omits scoring is not accepted: on otherwise valid inputs the
run fails with KeyError on the scoring field instead of reaching dispatch. -/
theorem orchestrator_omitted_scoring_cex :
    c9Inputs.has_estimator = true ∧ c9Inputs.has_param_grid = true ∧
    c9Inputs.has_fit_params = true ∧ c9Inputs.has_scoring = false ∧
    main_preflight c9Inputs = (.error (.keyError "scoring"), []) ∧
    (main_preflight c9Inputs).1 ≠ .ok () := by decide

def c9bInputs : MainInputs :=
  { search_params_file_exists := true, training_file_exists := true,
    has_validation_file := false, validation_file_exists := false,
    output_dir_exists := true, training_columns := ["x1", "x2", "label"],
    validation_columns := [], has_estimator := true, has_param_grid := true,
    has_fit_params := false, has_scoring := true, target_col := "label" }

theorem orchestrator_scoring_required_witness :
    c9bInputs.search_params_file_exists = true ∧
    c9bInputs.training_file_exists = true ∧
    c9bInputs.has_validation_file = false ∧
    c9bInputs.output_dir_exists = true ∧
    c9bInputs.target_col ∈ c9bInputs.training_columns ∧
    c9bInputs.has_estimator = true ∧
    c9bInputs.has_param_grid = true ∧
    c9bInputs.has_fit_params = false ∧
    ((c9bInputs.has_scoring = true → main_preflight c9bInputs = (.ok (), [])) ∧
     (c9bInputs.has_scoring = false →
        main_preflight c9bInputs = (.error (.keyError "scoring"), []))) :=
  ⟨rfl, rfl, rfl, rfl, by decide, rfl, rfl, rfl,
   orchestrator_scoring_required_fit_params_optional c9bInputs rfl rfl rfl rfl
     (by decide) rfl rfl⟩

/-! Invalid metric names are only caught at the first evaluation, after a fit. -/

/-- K-fold configuration constraint: KFold(n_splits=K) requires K at least 2. -/
def cvOk : Option ℕ → Prop
  | Option.none => True
  | Option.some K => 2 ≤ K

instance instDecidableCvOk : (o : Option ℕ) → Decidable (cvOk o)
  | Option.none => Decidable.isTrue trivial
  | Option.some K => inferInstanceAs (Decidable (2 ≤ K))

theorem train_model_invalid (metrics : List String) (score : String → ℚ)
    (time : ℕ → ℚ) (nRecords : ℕ) (fitTime : ℚ)
    (h : unavailableMetrics metrics ≠ []) :
    train_model metrics score time nRecords fitTime
      = (.error (.invalidMetric (unavailableMetrics metrics)), [Eff.fit]) := by
  rw [train_model, evaluate_model_invalid _ _ _ _ _ h]

theorem foldRecord_invalid (fo : FoldOracle) (metrics : List String)
    (h : unavailableMetrics metrics ≠ []) :
    foldRecord fo metrics
      = (.error (.invalidMetric (unavailableMetrics metrics)), [Eff.fit]) := by
  rw [foldRecord, evaluate_model_invalid _ _ _ _ _ h]

theorem cross_validate_invalid (K : ℕ) (fo : ℕ → FoldOracle)
    (metrics : List String) (hK : 2 ≤ K)
    (h : unavailableMetrics metrics ≠ []) :
    cross_validate K fo metrics
      = (.error (.invalidMetric (unavailableMetrics metrics)), [Eff.fit]) := by
  rw [cross_validate, if_neg (by omega)]
  obtain ⟨K2, rfl⟩ : ∃ K2, K = K2 + 1 := ⟨K - 1, by omega⟩
  rw [List.range_succ_eq_map, cvFolds, foldRecord_invalid (fo 0) metrics h]

/-- C5 amended: when the requested metric list contains an unsupported name
and the job is not skipped, the job fails with the invalid-metric ValueError,
but only at the first _evaluate_model call, which happens after the first
estimator.fit: the effect trace at the moment the exception propagates is
exactly parameter application followed by one fit call -- the first
cross-validation fold's fit when cross validation is configured, otherwise
the main training fit -- so training does occur before the rejection. -/
theorem invalid_metric_rejected_after_first_fit (o : JobOracle)
    (params : List (String × PyVal)) (model_id : ℕ) (output_dir : String)
    (cv : Option ℕ) (vf : Option String) (metrics : List String)
    (tf tc : String) (fs : List String)
    (hrf : results_file output_dir model_id ∉ fs)
    (hbad : ∃ m ∈ metrics, m ∉ AVAILABLE_METRICS)
    (hcv : cvOk cv) :
    train_and_evaluate o params model_id output_dir cv vf metrics tf tc fs
      = (.error (.invalidMetric (unavailableMetrics metrics)),
         [Eff.setParams, Eff.fit], fs) := by
  have hne : unavailableMetrics metrics ≠ [] := by
    obtain ⟨m, hm, hna⟩ := hbad
    intro he
    exact hna (((unavailableMetrics_eq_nil metrics).1 he) m hm)
  cases cv with
  | none =>
    simp only [train_and_evaluate, if_neg hrf,
      train_model_invalid metrics o.scoreTrain o.timeTrain o.nTrain o.fitTime hne]
    rfl
  | some K =>
    have hK : 2 ≤ K := hcv
    simp only [train_and_evaluate, if_neg hrf,
      cross_validate_invalid K o.cvFold metrics hK hne]

/-- C5 counterexample: on a fresh run (no results file) with the single
unsupported metric name bogus and no cross validation, the job raises the
invalid-metric error with the effect trace parameter application then one
fit: a fit call happens before the InvalidMetric error is raised, refuting
the claim that no fit precedes the rejection. -/
theorem invalid_metric_after_fit_cex :
    train_and_evaluate oracle0 [] 0 "out" none none ["bogus"] "t.csv" "y" []
      = (.error (.invalidMetric ["bogus"]), [Eff.setParams, Eff.fit], []) ∧
    Eff.fit ∈ [Eff.setParams, Eff.fit] := by decide

theorem invalid_metric_after_fit_witness :
    (results_file "out" 0 ∉ ([] : List String)) ∧
    (∃ m ∈ (["bogus"] : List String), m ∉ AVAILABLE_METRICS) ∧
    cvOk (some 2) ∧
    train_and_evaluate oracle0 [] 0 "out" (some 2) (some "v.csv") ["bogus"] "t.csv" "y" []
      = (.error (.invalidMetric (unavailableMetrics ["bogus"])),
         [Eff.setParams, Eff.fit], []) :=
  ⟨by decide, by decide, by decide,
   invalid_metric_rejected_after_first_fit oracle0 [] 0 "out" (some 2) (some "v.csv")
     ["bogus"] "t.csv" "y" [] (by decide) (by decide) (by decide)⟩

/-! Write ordering: no file write before success, model strictly before results. -/

def isWrite : Eff → Bool
  | .writeModel _ => true
  | .writeResults _ => true
  | _ => false

theorem evaluate_model_trace (metrics : List String) (s : String → ℚ) (t : ℕ → ℚ)
    (n : ℕ) (pfx : String) :
    (evaluate_model metrics s t n pfx).2 = []
      ∨ (evaluate_model metrics s t n pfx).2 = metrics.map Eff.score := by
  rw [evaluate_model]
  by_cases hbad : unavailableMetrics metrics = []
  · by_cases hl : metrics.length = 0 <;> simp [hbad, hl]
  · simp [hbad]

theorem evaluate_model_noWrite (metrics : List String) (s : String → ℚ)
    (t : ℕ → ℚ) (n : ℕ) (pfx : String) :
    ∀ e ∈ (evaluate_model metrics s t n pfx).2, isWrite e = false := by
  intro e he
  rcases evaluate_model_trace metrics s t n pfx with h | h <;> rw [h] at he
  · cases he
  · obtain ⟨m, _, he2⟩ := List.mem_map.1 he
    rw [← he2]
    rfl

theorem train_model_noWrite (metrics : List String) (s : String → ℚ) (t : ℕ → ℚ)
    (n : ℕ) (ft : ℚ) :
    ∀ e ∈ (train_model metrics s t n ft).2, isWrite e = false := by
  intro e he
  rw [train_model] at he
  rcases h1 : evaluate_model metrics s t n "training" with ⟨r1, tr1⟩
  rw [h1] at he
  have hw := evaluate_model_noWrite metrics s t n "training"
  rw [h1] at hw
  cases r1 with
  | error er =>
    simp only [List.mem_cons] at he
    rcases he with h | h
    · rw [h]; rfl
    · exact hw e h
  | ok d =>
    simp only [List.mem_cons] at he
    rcases he with h | h
    · rw [h]; rfl
    · exact hw e h

theorem foldRecord_noWrite (fo : FoldOracle) (metrics : List String) :
    ∀ e ∈ (foldRecord fo metrics).2, isWrite e = false := by
  intro e he
  rw [foldRecord] at he
  rcases h1 : evaluate_model metrics fo.scoreT fo.timeT fo.nTrain
      "cross_validation_training" with ⟨r1, tr1⟩
  rw [h1] at he
  have hw1 := evaluate_model_noWrite metrics fo.scoreT fo.timeT fo.nTrain
    "cross_validation_training"
  rw [h1] at hw1
  cases r1 with
  | error er =>
    simp only [List.mem_cons] at he
    rcases he with h | h
    · rw [h]; rfl
    · exact hw1 e h
  | ok dT =>
    rcases h2 : evaluate_model metrics fo.scoreV fo.timeV fo.nTest
        "cross_validation" with ⟨r2, tr2⟩
    rw [h2] at he
    have hw2 := evaluate_model_noWrite metrics fo.scoreV fo.timeV fo.nTest
      "cross_validation"
    rw [h2] at hw2
    cases r2 with
    | error er =>
      simp only [List.mem_cons, List.mem_append] at he
      rcases he with h | h | h
      · rw [h]; rfl
      · exact hw1 e h
      · exact hw2 e h
    | ok dV =>
      simp only [List.mem_cons, List.mem_append] at he
      rcases he with h | h | h
      · rw [h]; rfl
      · exact hw1 e h
      · exact hw2 e h

theorem cvFolds_noWrite (fo : ℕ → FoldOracle) (metrics : List String) :
    ∀ (is2 : List ℕ), ∀ e ∈ (cvFolds fo metrics is2).2, isWrite e = false := by
  intro is2
  induction is2 with
  | nil => intro e he; cases he
  | cons i rest ih =>
    intro e he
    rw [cvFolds] at he
    rcases h1 : foldRecord (fo i) metrics with ⟨r1, tr1⟩
    rw [h1] at he
    have hw1 := foldRecord_noWrite (fo i) metrics
    rw [h1] at hw1
    cases r1 with
    | error er => exact hw1 e he
    | ok r =>
      rcases h2 : cvFolds fo metrics rest with ⟨r2, tr2⟩
      rw [h2] at he
      have hw2 := ih
      rw [h2] at hw2
      cases r2 with
      | error er =>
        simp only [List.mem_append] at he
        rcases he with h | h
        · exact hw1 e h
        · exact hw2 e h
      | ok rs =>
        simp only [List.mem_append] at he
        rcases he with h | h
        · exact hw1 e h
        · exact hw2 e h

theorem cross_validate_noWrite (K : ℕ) (fo : ℕ → FoldOracle) (metrics : List String) :
    ∀ e ∈ (cross_validate K fo metrics).2, isWrite e = false := by
  intro e he
  rw [cross_validate] at he
  by_cases hK : K < 2
  · rw [if_pos hK] at he; cases he
  · rw [if_neg hK] at he
    rcases h1 : cvFolds fo metrics (List.range K) with ⟨r1, tr1⟩
    rw [h1] at he
    have hw := cvFolds_noWrite fo metrics (List.range K)
    rw [h1] at hw
    cases r1 with
    | error er => exact hw e he
    | ok rs => exact hw e he

theorem filesAfter_append (l1 l2 : List Eff) :
    ∀ fs, filesAfter fs (l1 ++ l2) = filesAfter (filesAfter fs l1) l2 := by
  induction l1 with
  | nil => intro fs; rfl
  | cons e es ih =>
    intro fs
    cases e <;> simp [filesAfter, ih]

theorem filesAfter_nonwrite (l : List Eff) :
    ∀ fs, (∀ e ∈ l, isWrite e = false) → filesAfter fs l = fs := by
  induction l with
  | nil => intro fs _; rfl
  | cons e es ih =>
    intro fs h
    cases e with
    | setParams => exact ih fs (fun x hx => h x (List.mem_cons_of_mem _ hx))
    | fit => exact ih fs (fun x hx => h x (List.mem_cons_of_mem _ hx))
    | score m => exact ih fs (fun x hx => h x (List.mem_cons_of_mem _ hx))
    | writeModel f => exact absurd (h _ (List.mem_cons_self _ _)) (by simp [isWrite])
    | writeResults f => exact absurd (h _ (List.mem_cons_self _ _)) (by simp [isWrite])

theorem str_data_append (a b : String) : (a ++ b).data = a.data ++ b.data := by
  cases a with | mk la =>
  cases b with | mk lb =>
  rfl

theorem model_ne_results (d : String) (i : ℕ) :
    model_file d i ≠ results_file d i := by
  intro h
  have h2 : ("/model_" ++ (toString i ++ ".pkl") : String)
      = "/results_" ++ (toString i ++ ".json") := strCancelLeft h
  have h3 := congrArg String.data h2
  simp only [str_data_append] at h3
  simp at h3

theorem write_last_invariant (t : List Eff) (mf rf : String) (fs : List String)
    (hnw : ∀ e ∈ t, isWrite e = false) (hrf : rf ∉ fs) (hne : mf ≠ rf) :
    ∀ n, rf ∈ filesAfter fs ((t ++ [Eff.writeModel mf, Eff.writeResults rf]).take n) →
      mf ∈ filesAfter fs ((t ++ [Eff.writeModel mf, Eff.writeResults rf]).take n) := by
  intro n hmem
  by_cases h1 : n ≤ t.length
  · rw [List.take_append_of_le_length h1] at hmem
    have he : filesAfter fs (t.take n) = fs :=
      filesAfter_nonwrite _ _ (fun e he => hnw e (List.take_subset n t he))
    rw [he] at hmem
    exact absurd hmem hrf
  · push_neg at h1
    by_cases h2 : n = t.length + 1
    · subst h2
      have htake : (t ++ [Eff.writeModel mf, Eff.writeResults rf]).take (t.length + 1)
          = t ++ [Eff.writeModel mf] := by
        have h5 : (t ++ [Eff.writeModel mf, Eff.writeResults rf]).take (t.length + 1)
            = t ++ ([Eff.writeModel mf, Eff.writeResults rf]).take 1 :=
          List.take_append 1
        simpa using h5
      rw [htake] at hmem ⊢
      rw [filesAfter_append, filesAfter_nonwrite t fs hnw] at hmem ⊢
      simp only [filesAfter] at hmem ⊢
      rw [mem_fsAdd] at hmem
      rcases hmem with h | h
      · exact absurd h hrf
      · exact absurd h.symm hne
    · have htake : (t ++ [Eff.writeModel mf, Eff.writeResults rf]).take n
          = t ++ [Eff.writeModel mf, Eff.writeResults rf] := by
        apply List.take_of_length_le
        simp
        omega
      rw [htake]
      rw [filesAfter_append, filesAfter_nonwrite t fs hnw]
      simp only [filesAfter]
      rw [mem_fsAdd, mem_fsAdd]
      exact Or.inl (Or.inr rfl)

theorem train_and_evaluate_shape (o : JobOracle) (params : List (String × PyVal))
    (model_id : ℕ) (output_dir : String) (cv : Option ℕ) (vf : Option String)
    (metrics : List String) (tf tc : String) (fs : List String)
    (hrf : results_file output_dir model_id ∉ fs) :
    (∃ e t, train_and_evaluate o params model_id output_dir cv vf metrics tf tc fs
        = (.error e, t, fs) ∧ ∀ ef ∈ t, isWrite ef = false) ∨
    (∃ t, train_and_evaluate o params model_id output_dir cv vf metrics tf tc fs
        = (.ok (), t ++ [Eff.writeModel (model_file output_dir model_id),
                         Eff.writeResults (results_file output_dir model_id)],
           fsAdd (fsAdd fs (model_file output_dir model_id))
             (results_file output_dir model_id))
        ∧ ∀ ef ∈ t, isWrite ef = false) := by
  have hcvw : ∀ (st : Except PyError (List (String × PyVal)) × List Eff),
      (match cv with
       | none => (Except.ok [], ([] : List Eff))
       | some K => cross_validate K o.cvFold metrics) = st →
      ∀ ef ∈ st.2, isWrite ef = false := by
    intro st hst ef hef
    cases cv with
    | none => rw [← hst] at hef; cases hef
    | some K =>
      rw [← hst] at hef
      exact cross_validate_noWrite K o.cvFold metrics ef hef
  rcases h1 : (match cv with
    | none => (Except.ok [], ([] : List Eff))
    | some K => cross_validate K o.cvFold metrics) with ⟨r1, trCV⟩
  have hw1 : ∀ ef ∈ trCV, isWrite ef = false := hcvw (r1, trCV) h1
  cases r1 with
  | error e =>
    left
    refine ⟨e, Eff.setParams :: trCV, ?_, ?_⟩
    · simp only [train_and_evaluate, if_neg hrf, h1]
    · intro ef hef
      rcases List.mem_cons.1 hef with h | h
      · rw [h]; rfl
      · exact hw1 ef h
  | ok cvr =>
    rcases h2 : train_model metrics o.scoreTrain o.timeTrain o.nTrain o.fitTime
      with ⟨r2, trT⟩
    have hw2 : ∀ ef ∈ trT, isWrite ef = false := by
      have := train_model_noWrite metrics o.scoreTrain o.timeTrain o.nTrain o.fitTime
      rw [h2] at this
      exact this
    cases r2 with
    | error e =>
      left
      refine ⟨e, Eff.setParams :: (trCV ++ trT), ?_, ?_⟩
      · simp only [train_and_evaluate, if_neg hrf, h1, h2]
      · intro ef hef
        rcases List.mem_cons.1 hef with h | h
        · rw [h]; rfl
        · rcases List.mem_append.1 h with h3 | h3
          · exact hw1 ef h3
          · exact hw2 ef h3
    | ok trainr =>
      rcases h3 : (match vf with
        | some _ => evaluate_model metrics o.scoreVal o.timeVal o.nVal "validation"
        | none => (Except.ok [], ([] : List Eff))) with ⟨r3, trV⟩
      have hw3 : ∀ ef ∈ trV, isWrite ef = false := by
        intro ef hef
        cases vf with
        | none =>
          rw [show trV = ([] : List Eff) from by
            have := congrArg Prod.snd h3
            simpa using this.symm] at hef
          cases hef
        | some v =>
          have h3b : evaluate_model metrics o.scoreVal o.timeVal o.nVal "validation"
              = (r3, trV) := h3
          have hnw3 := evaluate_model_noWrite metrics o.scoreVal o.timeVal o.nVal "validation"
          rw [h3b] at hnw3
          exact hnw3 ef hef
      cases r3 with
      | error e =>
        left
        refine ⟨e, Eff.setParams :: (trCV ++ trT ++ trV), ?_, ?_⟩
        · simp only [train_and_evaluate, if_neg hrf, h1, h2, h3]
        · intro ef hef
          rcases List.mem_cons.1 hef with h | h
          · rw [h]; rfl
          · rcases List.mem_append.1 h with h4 | h4
            · rcases List.mem_append.1 h4 with h5 | h5
              · exact hw1 ef h5
              · exact hw2 ef h5
            · exact hw3 ef h4
      | ok valr =>
        right
        refine ⟨Eff.setParams :: (trCV ++ trT ++ trV), ?_, ?_⟩
        · simp only [train_and_evaluate, if_neg hrf, h1, h2, h3, List.cons_append]
        · intro ef hef
          rcases List.mem_cons.1 hef with h | h
          · rw [h]; rfl
          · rcases List.mem_append.1 h with h4 | h4
            · rcases List.mem_append.1 h4 with h5 | h5
              · exact hw1 ef h5
              · exact hw2 ef h5
            · exact hw3 ef h4

/-- C2: on a fresh job (no pre-existing results file), every file write
happens only after all computation of the job succeeds: when the job fails,
no write effect occurs at all and the file system is unchanged; when the job
succeeds, the effect trace ends with exactly the model write followed
strictly by the results write, with no earlier write; consequently at every
prefix of the execution, whenever the results file exists on disk the model
file exists as well. -/
theorem model_written_before_results (o : JobOracle) (params : List (String × PyVal))
    (model_id : ℕ) (output_dir : String) (cv : Option ℕ) (vf : Option String)
    (metrics : List String) (tf tc : String) (fs : List String)
    (hrf : results_file output_dir model_id ∉ fs) :
    (∀ u tr fs1,
       train_and_evaluate o params model_id output_dir cv vf metrics tf tc fs
         = (.ok u, tr, fs1) →
       (∃ t, tr = t ++ [Eff.writeModel (model_file output_dir model_id),
                        Eff.writeResults (results_file output_dir model_id)]
          ∧ ∀ e ∈ t, isWrite e = false)
       ∧ fs1 = fsAdd (fsAdd fs (model_file output_dir model_id))
           (results_file output_dir model_id)
       ∧ (∀ n, results_file output_dir model_id ∈ filesAfter fs (tr.take n) →
            model_file output_dir model_id ∈ filesAfter fs (tr.take n))) ∧
    (∀ e tr fs1,
       train_and_evaluate o params model_id output_dir cv vf metrics tf tc fs
         = (.error e, tr, fs1) →
       fs1 = fs ∧ ∀ ef ∈ tr, isWrite ef = false) := by
  rcases train_and_evaluate_shape o params model_id output_dir cv vf metrics tf tc fs hrf
    with ⟨e, t, hsh, hnw⟩ | ⟨t, hsh, hnw⟩
  · constructor
    · intro u tr fs1 heq
      rw [hsh] at heq
      simp at heq
    · intro e2 tr fs1 heq
      rw [hsh] at heq
      have h1 := congrArg (fun p => p.2.1) heq
      have h2 := congrArg (fun p => p.2.2) heq
      simp only at h1 h2
      subst h1
      subst h2
      exact ⟨rfl, hnw⟩
  · constructor
    · intro u tr fs1 heq
      rw [hsh] at heq
      have h1 := congrArg (fun p => p.2.1) heq
      have h2 := congrArg (fun p => p.2.2) heq
      simp only at h1 h2
      subst h1
      subst h2
      refine ⟨⟨t, rfl, hnw⟩, rfl, ?_⟩
      intro n
      exact write_last_invariant t _ _ fs hnw hrf (model_ne_results output_dir model_id) n
    · intro e2 tr fs1 heq
      rw [hsh] at heq
      simp at heq

theorem model_written_before_results_witness :
    (results_file "out" 0 ∉ ([] : List String)) ∧
    ((∀ u tr fs1,
       train_and_evaluate oracle0 [] 0 "out" none none ["accuracy"] "t.csv" "y" []
         = (.ok u, tr, fs1) →
       (∃ t, tr = t ++ [Eff.writeModel (model_file "out" 0),
                        Eff.writeResults (results_file "out" 0)]
          ∧ ∀ e ∈ t, isWrite e = false)
       ∧ fs1 = fsAdd (fsAdd [] (model_file "out" 0)) (results_file "out" 0)
       ∧ (∀ n, results_file "out" 0 ∈ filesAfter [] (tr.take n) →
            model_file "out" 0 ∈ filesAfter [] (tr.take n))) ∧
     (∀ e tr fs1,
       train_and_evaluate oracle0 [] 0 "out" none none ["accuracy"] "t.csv" "y" []
         = (.error e, tr, fs1) →
       fs1 = [] ∧ ∀ ef ∈ tr, isWrite ef = false)) :=
  ⟨by decide,
   model_written_before_results oracle0 [] 0 "out" none none ["accuracy"] "t.csv" "y" []
     (by decide)⟩

/-! Cross-validation aggregation: K-entry _all lists and their means. -/

/-- The per-fold field names of a cross-validation record, in the order one
iteration of the fold loop produces them for the given metric list. -/
def cvFieldNames (metrics : List String) : List String :=
  "cross_validation_training_time_total"
    :: ((metrics.map (fun m => "cross_validation_training" ++ "_" ++ m)
        ++ ["cross_validation_training" ++ "_total_prediction_time",
            "cross_validation_training" ++ "_total_prediction_records"])
      ++ (metrics.map (fun m => "cross_validation" ++ "_" ++ m)
        ++ ["cross_validation" ++ "_total_prediction_time",
            "cross_validation" ++ "_total_prediction_records"]))

/-- The raw value of field f in the record one fold produces (0 when the fold
fails or the field is absent): the per-fold values the _all lists collect. -/
def foldFieldValue (fo : FoldOracle) (metrics : List String) (f : String) : ℚ :=
  match foldRecord fo metrics with
  | (.ok r, _) => (List.lookup f r).getD 0
  | (.error _, _) => 0

theorem kT_split (m : String) :
    "cross_validation_training" ++ "_" ++ m
      = "cross_validation" ++ "_" ++ ("training_" ++ m) := by
  cases m with | mk l => rfl

theorem ctt_as_kT :
    ("cross_validation_training_time_total" : String)
      = "cross_validation_training" ++ "_" ++ "time_total" := rfl

theorem ctt_as_kV :
    ("cross_validation_training_time_total" : String)
      = "cross_validation" ++ "_" ++ "training_time_total" := rfl

theorem tt_as_kV :
    ("cross_validation_training" ++ "_total_prediction_time" : String)
      = "cross_validation" ++ "_" ++ "training_total_prediction_time" := rfl

theorem tr_as_kV :
    ("cross_validation_training" ++ "_total_prediction_records" : String)
      = "cross_validation" ++ "_" ++ "training_total_prediction_records" := rfl

theorem vt_as_kV :
    ("cross_validation" ++ "_total_prediction_time" : String)
      = "cross_validation" ++ "_" ++ "total_prediction_time" := rfl

theorem vr_as_kV :
    ("cross_validation" ++ "_total_prediction_records" : String)
      = "cross_validation" ++ "_" ++ "total_prediction_records" := rfl

theorem avail_cv_decides : ∀ m ∈ AVAILABLE_METRICS,
    m ≠ "time_total" ∧ m ≠ "training_time_total" ∧
    m ≠ "training_total_prediction_time" ∧ m ≠ "training_total_prediction_records" ∧
    "training_" ++ m ≠ "total_prediction_time" ∧
    "training_" ++ m ≠ "total_prediction_records" ∧
    "training_" ++ m ≠ "training_time_total" ∧
    (∀ m2 ∈ AVAILABLE_METRICS, m ≠ "training_" ++ m2) := by decide

theorem cv_fixed_decides :
    ("training_time_total" : String) ≠ "training_total_prediction_time" ∧
    ("training_time_total" : String) ≠ "training_total_prediction_records" ∧
    ("training_time_total" : String) ≠ "total_prediction_time" ∧
    ("training_time_total" : String) ≠ "total_prediction_records" ∧
    ("training_total_prediction_time" : String) ≠ "total_prediction_time" ∧
    ("training_total_prediction_time" : String) ≠ "total_prediction_records" ∧
    ("training_total_prediction_records" : String) ≠ "total_prediction_time" ∧
    ("training_total_prediction_records" : String) ≠ "total_prediction_records" := by
  decide

theorem eval_keys_nodup (pfx : String) (metrics : List String)
    (h2 : ∀ m ∈ metrics, m ∈ AVAILABLE_METRICS) (h3 : metrics.Nodup) :
    (metrics.map (fun m => pfx ++ "_" ++ m)
      ++ [pfx ++ "_total_prediction_time",
          pfx ++ "_total_prediction_records"]).Nodup := by
  refine List.Nodup.append (metric_keys_nodup pfx metrics h3)
    (by simp [time_ne_records pfx]) ?_
  intro x hx hmem
  obtain ⟨m, hm, he⟩ := List.mem_map.1 hx
  rcases List.mem_cons.1 hmem with he2 | he3
  · exact key_ne_time pfx m (h2 m hm) (he.symm ▸ he2 ▸ rfl)
  · have hx2 : x = pfx ++ "_total_prediction_records" := by simpa using he3
    exact key_ne_records pfx m (h2 m hm) (he.symm ▸ hx2 ▸ rfl)

theorem kT_ne_kV (m m2 : String) (hm : m ∈ AVAILABLE_METRICS)
    (hm2 : m2 ∈ AVAILABLE_METRICS) :
    "cross_validation_training" ++ "_" ++ m ≠ "cross_validation" ++ "_" ++ m2 := by
  rw [kT_split]
  intro h
  obtain ⟨-, -, -, -, -, -, -, hlast⟩ := avail_cv_decides m2 hm2
  exact hlast m hm (key_inj _ _ _ h).symm

theorem kT_ne_ctt (m : String) (hm : m ∈ AVAILABLE_METRICS) :
    "cross_validation_training" ++ "_" ++ m
      ≠ "cross_validation_training_time_total" := by
  rw [ctt_as_kT]
  intro h
  exact (avail_cv_decides m hm).1 (key_inj _ _ _ h)

theorem kV_ne_ctt (m : String) (hm : m ∈ AVAILABLE_METRICS) :
    "cross_validation" ++ "_" ++ m ≠ "cross_validation_training_time_total" := by
  rw [ctt_as_kV]
  intro h
  exact (avail_cv_decides m hm).2.1 (key_inj _ _ _ h)

theorem kV_ne_tt (m : String) (hm : m ∈ AVAILABLE_METRICS) :
    "cross_validation" ++ "_" ++ m
      ≠ "cross_validation_training" ++ "_total_prediction_time" := by
  rw [tt_as_kV]
  intro h
  exact (avail_cv_decides m hm).2.2.1 (key_inj _ _ _ h)

theorem kV_ne_tr (m : String) (hm : m ∈ AVAILABLE_METRICS) :
    "cross_validation" ++ "_" ++ m
      ≠ "cross_validation_training" ++ "_total_prediction_records" := by
  rw [tr_as_kV]
  intro h
  exact (avail_cv_decides m hm).2.2.2.1 (key_inj _ _ _ h)

theorem kT_ne_vt (m : String) (hm : m ∈ AVAILABLE_METRICS) :
    "cross_validation_training" ++ "_" ++ m
      ≠ "cross_validation" ++ "_total_prediction_time" := by
  rw [kT_split, vt_as_kV]
  intro h
  exact (avail_cv_decides m hm).2.2.2.2.1 (key_inj _ _ _ h)

theorem kT_ne_vr (m : String) (hm : m ∈ AVAILABLE_METRICS) :
    "cross_validation_training" ++ "_" ++ m
      ≠ "cross_validation" ++ "_total_prediction_records" := by
  rw [kT_split, vr_as_kV]
  intro h
  exact (avail_cv_decides m hm).2.2.2.2.2.1 (key_inj _ _ _ h)

theorem tt_ne_ctt :
    ("cross_validation_training" ++ "_total_prediction_time" : String)
      ≠ "cross_validation_training_time_total" := by
  rw [tt_as_kV, ctt_as_kV]
  intro h
  exact cv_fixed_decides.1 (key_inj _ _ _ h).symm

theorem tr_ne_ctt :
    ("cross_validation_training" ++ "_total_prediction_records" : String)
      ≠ "cross_validation_training_time_total" := by
  rw [tr_as_kV, ctt_as_kV]
  intro h
  exact cv_fixed_decides.2.1 (key_inj _ _ _ h).symm

theorem vt_ne_ctt :
    ("cross_validation" ++ "_total_prediction_time" : String)
      ≠ "cross_validation_training_time_total" := by
  rw [vt_as_kV, ctt_as_kV]
  intro h
  exact cv_fixed_decides.2.2.1 (key_inj _ _ _ h).symm

theorem vr_ne_ctt :
    ("cross_validation" ++ "_total_prediction_records" : String)
      ≠ "cross_validation_training_time_total" := by
  rw [vr_as_kV, ctt_as_kV]
  intro h
  exact cv_fixed_decides.2.2.2.1 (key_inj _ _ _ h).symm

theorem tt_ne_vt :
    ("cross_validation_training" ++ "_total_prediction_time" : String)
      ≠ "cross_validation" ++ "_total_prediction_time" := by
  rw [tt_as_kV, vt_as_kV]
  intro h
  exact cv_fixed_decides.2.2.2.2.1 (key_inj _ _ _ h)

theorem tt_ne_vr :
    ("cross_validation_training" ++ "_total_prediction_time" : String)
      ≠ "cross_validation" ++ "_total_prediction_records" := by
  rw [tt_as_kV, vr_as_kV]
  intro h
  exact cv_fixed_decides.2.2.2.2.2.1 (key_inj _ _ _ h)

theorem tr_ne_vt :
    ("cross_validation_training" ++ "_total_prediction_records" : String)
      ≠ "cross_validation" ++ "_total_prediction_time" := by
  rw [tr_as_kV, vt_as_kV]
  intro h
  exact cv_fixed_decides.2.2.2.2.2.2.1 (key_inj _ _ _ h)

theorem tr_ne_vr :
    ("cross_validation_training" ++ "_total_prediction_records" : String)
      ≠ "cross_validation" ++ "_total_prediction_records" := by
  rw [tr_as_kV, vr_as_kV]
  intro h
  exact cv_fixed_decides.2.2.2.2.2.2.2 (key_inj _ _ _ h)

theorem cvFieldNames_nodup (metrics : List String)
    (h2 : ∀ m ∈ metrics, m ∈ AVAILABLE_METRICS) (h3 : metrics.Nodup) :
    (cvFieldNames metrics).Nodup := by
  rw [cvFieldNames, List.nodup_cons]
  constructor
  · intro hmem
    rcases List.mem_append.1 hmem with h | h
    · rcases List.mem_append.1 h with h4 | h4
      · obtain ⟨m, hm, he⟩ := List.mem_map.1 h4
        exact kT_ne_ctt m (h2 m hm) he
      · rcases List.mem_cons.1 h4 with he | he2
        · exact tt_ne_ctt he.symm
        · have he3 : "cross_validation_training_time_total"
              = "cross_validation_training" ++ "_total_prediction_records" := by
            simpa using he2
          exact tr_ne_ctt he3.symm
    · rcases List.mem_append.1 h with h4 | h4
      · obtain ⟨m, hm, he⟩ := List.mem_map.1 h4
        exact kV_ne_ctt m (h2 m hm) he
      · rcases List.mem_cons.1 h4 with he | he2
        · exact vt_ne_ctt he.symm
        · have he3 : "cross_validation_training_time_total"
              = "cross_validation" ++ "_total_prediction_records" := by
            simpa using he2
          exact vr_ne_ctt he3.symm
  · refine List.Nodup.append (eval_keys_nodup "cross_validation_training" metrics h2 h3)
      (eval_keys_nodup "cross_validation" metrics h2 h3) ?_
    intro x hx hy
    rcases List.mem_append.1 hx with hx1 | hx1 <;>
      rcases List.mem_append.1 hy with hy1 | hy1
    · obtain ⟨m, hm, he⟩ := List.mem_map.1 hx1
      obtain ⟨m2, hm2, he2⟩ := List.mem_map.1 hy1
      exact kT_ne_kV m m2 (h2 m hm) (h2 m2 hm2) (he.trans he2.symm)
    · obtain ⟨m, hm, he⟩ := List.mem_map.1 hx1
      rcases List.mem_cons.1 hy1 with he2 | he3
      · exact kT_ne_vt m (h2 m hm) (he.trans he2)
      · have he4 : x = "cross_validation" ++ "_total_prediction_records" := by
          simpa using he3
        exact kT_ne_vr m (h2 m hm) (he.trans he4)
    · obtain ⟨m2, hm2, he2⟩ := List.mem_map.1 hy1
      rcases List.mem_cons.1 hx1 with he | he3
      · exact kV_ne_tt m2 (h2 m2 hm2) (he2.trans he)
      · have he4 : x = "cross_validation_training" ++ "_total_prediction_records" := by
          simpa using he3
        exact kV_ne_tr m2 (h2 m2 hm2) (he2.trans he4)
    · rcases List.mem_cons.1 hx1 with he | he3 <;>
        rcases List.mem_cons.1 hy1 with he2 | he4
      · exact tt_ne_vt (he.symm.trans he2)
      · have he5 : x = "cross_validation" ++ "_total_prediction_records" := by
          simpa using he4
        exact tt_ne_vr (he.symm.trans he5)
      · have he5 : x = "cross_validation_training" ++ "_total_prediction_records" := by
          simpa using he3
        exact tr_ne_vt (he5.symm.trans he2)
      · have he5 : x = "cross_validation_training" ++ "_total_prediction_records" := by
          simpa using he3
        have he6 : x = "cross_validation" ++ "_total_prediction_records" := by
          simpa using he4
        exact tr_ne_vr (he5.symm.trans he6)

theorem keysOf_eval (key : String → String) (val : String → ℚ)
    (metrics : List String) (a b : String) (x y : ℚ) :
    keysOf (metrics.map (fun m => (key m, val m)) ++ [(a, x), (b, y)])
      = metrics.map key ++ [a, b] := by
  simp [keysOf, List.map_append, List.map_map, Function.comp]

/-- The record a successful cross-validation fold produces, in closed form:
the fold training time, the prefixed per-metric scores and the two timing
fields of the fold-training evaluation, then the same for the held-out
evaluation (see foldRecord_ok below). -/
def foldRecOk (fo : FoldOracle) (metrics : List String) : List (String × ℚ) :=
  ("cross_validation_training_time_total", fo.fitTime)
    :: ((metrics.map (fun m => ("cross_validation_training" ++ "_" ++ m, fo.scoreT m))
      ++ [("cross_validation_training" ++ "_total_prediction_time",
           ((List.range metrics.length).map fo.timeT).sum / (metrics.length : ℚ)),
          ("cross_validation_training" ++ "_total_prediction_records",
           ((fo.nTrain : ℚ)))])
    ++ (metrics.map (fun m => ("cross_validation" ++ "_" ++ m, fo.scoreV m))
      ++ [("cross_validation" ++ "_total_prediction_time",
           ((List.range metrics.length).map fo.timeV).sum / (metrics.length : ℚ)),
          ("cross_validation" ++ "_total_prediction_records",
           ((fo.nTest : ℚ)))]))

theorem foldRecord_ok (fo : FoldOracle) (metrics : List String)
    (h1 : metrics ≠ []) (h2 : ∀ m ∈ metrics, m ∈ AVAILABLE_METRICS)
    (h3 : metrics.Nodup) :
    foldRecord fo metrics
      = (.ok (foldRecOk fo metrics),
         Eff.fit :: (metrics.map Eff.score ++ metrics.map Eff.score)) := by
  rw [foldRecOk]
  have hokT := evaluate_model_ok metrics fo.scoreT fo.timeT fo.nTrain
    "cross_validation_training" h1 h2
    (metric_keys_nodup "cross_validation_training" metrics h3)
    (fun m hm => key_ne_time "cross_validation_training" m (h2 m hm))
    (fun m hm => key_ne_records "cross_validation_training" m (h2 m hm))
    (time_ne_records "cross_validation_training")
  have hokV := evaluate_model_ok metrics fo.scoreV fo.timeV fo.nTest
    "cross_validation" h1 h2
    (metric_keys_nodup "cross_validation" metrics h3)
    (fun m hm => key_ne_time "cross_validation" m (h2 m hm))
    (fun m hm => key_ne_records "cross_validation" m (h2 m hm))
    (time_ne_records "cross_validation")
  rw [foldRecord, hokT, hokV]
  dsimp only
  have hd0 : dinsert ([] : List (String × ℚ))
      "cross_validation_training_time_total" fo.fitTime
      = [("cross_validation_training_time_total", fo.fitTime)] := by
    rw [dinsert_fresh _ _ _ (by simp [keysOf])]
    rfl
  rw [hd0]
  have hu1 : pyUnion [("cross_validation_training_time_total", fo.fitTime)]
      (metrics.map (fun m => ("cross_validation_training" ++ "_" ++ m, fo.scoreT m))
        ++ [("cross_validation_training" ++ "_total_prediction_time",
             ((List.range metrics.length).map fo.timeT).sum / (metrics.length : ℚ)),
            ("cross_validation_training" ++ "_total_prediction_records",
             ((fo.nTrain : ℚ)))])
      = [("cross_validation_training_time_total", fo.fitTime)]
        ++ (metrics.map (fun m => ("cross_validation_training" ++ "_" ++ m, fo.scoreT m))
          ++ [("cross_validation_training" ++ "_total_prediction_time",
               ((List.range metrics.length).map fo.timeT).sum / (metrics.length : ℚ)),
              ("cross_validation_training" ++ "_total_prediction_records",
               ((fo.nTrain : ℚ)))]) := by
    apply pyUnion_fresh
    · rw [keysOf_eval]
      exact eval_keys_nodup "cross_validation_training" metrics h2 h3
    · intro k hk
      rw [keysOf_eval] at hk
      intro hmem
      have hke : k = "cross_validation_training_time_total" := by
        simpa [keysOf] using hmem
      rcases List.mem_append.1 hk with h4 | h4
      · obtain ⟨m, hm, he⟩ := List.mem_map.1 h4
        exact kT_ne_ctt m (h2 m hm) (he.trans hke)
      · rcases List.mem_cons.1 h4 with he | he2
        · exact tt_ne_ctt (he ▸ hke)
        · have he3 : k = "cross_validation_training" ++ "_total_prediction_records" := by
            simpa using he2
          exact tr_ne_ctt (he3 ▸ hke)
  rw [hu1]
  have hu2 : pyUnion
      ([("cross_validation_training_time_total", fo.fitTime)]
        ++ (metrics.map (fun m => ("cross_validation_training" ++ "_" ++ m, fo.scoreT m))
          ++ [("cross_validation_training" ++ "_total_prediction_time",
               ((List.range metrics.length).map fo.timeT).sum / (metrics.length : ℚ)),
              ("cross_validation_training" ++ "_total_prediction_records",
               ((fo.nTrain : ℚ)))]))
      (metrics.map (fun m => ("cross_validation" ++ "_" ++ m, fo.scoreV m))
        ++ [("cross_validation" ++ "_total_prediction_time",
             ((List.range metrics.length).map fo.timeV).sum / (metrics.length : ℚ)),
            ("cross_validation" ++ "_total_prediction_records",
             ((fo.nTest : ℚ)))])
      = ([("cross_validation_training_time_total", fo.fitTime)]
        ++ (metrics.map (fun m => ("cross_validation_training" ++ "_" ++ m, fo.scoreT m))
          ++ [("cross_validation_training" ++ "_total_prediction_time",
               ((List.range metrics.length).map fo.timeT).sum / (metrics.length : ℚ)),
              ("cross_validation_training" ++ "_total_prediction_records",
               ((fo.nTrain : ℚ)))]))
        ++ (metrics.map (fun m => ("cross_validation" ++ "_" ++ m, fo.scoreV m))
          ++ [("cross_validation" ++ "_total_prediction_time",
               ((List.range metrics.length).map fo.timeV).sum / (metrics.length : ℚ)),
              ("cross_validation" ++ "_total_prediction_records",
               ((fo.nTest : ℚ)))]) := by
    apply pyUnion_fresh
    · rw [keysOf_eval]
      exact eval_keys_nodup "cross_validation" metrics h2 h3
    · intro k hk
      rw [keysOf_eval] at hk
      rw [keysOf_append, keysOf_eval]
      intro hmem
      have hk2 : k = "cross_validation_training_time_total"
          ∨ ((∃ m ∈ metrics, "cross_validation_training" ++ "_" ++ m = k)
            ∨ k = "cross_validation_training" ++ "_total_prediction_time"
            ∨ k = "cross_validation_training" ++ "_total_prediction_records") := by
        rcases List.mem_append.1 hmem with h4 | h4
        · left; simpa [keysOf] using h4
        · right
          rcases List.mem_append.1 h4 with h5 | h5
          · left
            obtain ⟨m, hm, he⟩ := List.mem_map.1 h5
            exact ⟨m, hm, he⟩
          · right
            rcases List.mem_cons.1 h5 with he | he2
            · exact Or.inl he
            · exact Or.inr (by simpa using he2)
      have hkshape : (∃ m ∈ metrics, "cross_validation" ++ "_" ++ m = k)
          ∨ k = "cross_validation" ++ "_total_prediction_time"
          ∨ k = "cross_validation" ++ "_total_prediction_records" := by
        rcases List.mem_append.1 hk with h4 | h4
        · left
          obtain ⟨m, hm, he⟩ := List.mem_map.1 h4
          exact ⟨m, hm, he⟩
        · right
          rcases List.mem_cons.1 h4 with he | he2
          · exact Or.inl he
          · exact Or.inr (by simpa using he2)
      rcases hkshape with ⟨m, hm, he⟩ | he | he
      · rcases hk2 with hke | ⟨m2, hm2, he2⟩ | he2 | he2
        · exact kV_ne_ctt m (h2 m hm) (he.trans hke)
        · exact kT_ne_kV m2 m (h2 m2 hm2) (h2 m hm) (he2.trans he.symm)
        · exact kV_ne_tt m (h2 m hm) (he.trans he2)
        · exact kV_ne_tr m (h2 m hm) (he.trans he2)
      · rcases hk2 with hke | ⟨m2, hm2, he2⟩ | he2 | he2
        · exact vt_ne_ctt (he ▸ hke)
        · exact kT_ne_vt m2 (h2 m2 hm2) (he2.trans he)
        · exact tt_ne_vt (he2.symm.trans he)
        · exact tr_ne_vt (he2.symm.trans he)
      · rcases hk2 with hke | ⟨m2, hm2, he2⟩ | he2 | he2
        · exact vr_ne_ctt (he ▸ hke)
        · exact kT_ne_vr m2 (h2 m2 hm2) (he2.trans he)
        · exact tt_ne_vr (he2.symm.trans he)
        · exact tr_ne_vr (he2.symm.trans he)
  rw [hu2]
  simp

theorem keysOf_foldRecOk (fo : FoldOracle) (metrics : List String) :
    keysOf (foldRecOk fo metrics) = cvFieldNames metrics := by
  simp only [foldRecOk, cvFieldNames, keysOf, List.map_cons, List.map_append,
    List.map_map]
  rfl

theorem foldFieldValue_eq (fo : FoldOracle) (metrics : List String)
    (h1 : metrics ≠ []) (h2 : ∀ m ∈ metrics, m ∈ AVAILABLE_METRICS)
    (h3 : metrics.Nodup) (f : String) :
    foldFieldValue fo metrics f = (List.lookup f (foldRecOk fo metrics)).getD 0 := by
  rw [foldFieldValue, foldRecord_ok fo metrics h1 h2 h3]

theorem pyDedupAux_eats (seen : List String) :
    ∀ l, (∀ x ∈ l, x ∈ seen) → pyDedupAux seen l = [] := by
  intro l
  induction l with
  | nil => intro _; rfl
  | cons k ks ih =>
    intro h
    rw [pyDedupAux, if_pos (h k (List.mem_cons_self _ _))]
    exact ih (fun x hx => h x (List.mem_cons_of_mem _ hx))

theorem pyDedupAux_main :
    ∀ (l seen r : List String), l.Nodup → (∀ x ∈ l, x ∉ seen) →
      (∀ x ∈ r, x ∈ l ∨ x ∈ seen) → pyDedupAux seen (l ++ r) = l := by
  intro l
  induction l with
  | nil =>
    intro seen r _ _ hr
    have h : ∀ x ∈ r, x ∈ seen := by
      intro x hx
      rcases hr x hx with h | h
      · cases h
      · exact h
    simpa using pyDedupAux_eats seen r h
  | cons k ks ih =>
    intro seen r hnd hfresh hr
    have hk : k ∉ seen := hfresh k (List.mem_cons_self _ _)
    have hstep : pyDedupAux seen ((k :: ks) ++ r)
        = k :: pyDedupAux (k :: seen) (ks ++ r) := by
      rw [List.cons_append, pyDedupAux, if_neg hk]
    rw [hstep]
    rw [ih (k :: seen) r (List.nodup_cons.1 hnd).2 ?_ ?_]
    · intro x hx
      rw [List.mem_cons]
      push_neg
      exact ⟨fun he => (List.nodup_cons.1 hnd).1 (he ▸ hx),
        hfresh x (List.mem_cons_of_mem _ hx)⟩
    · intro x hx
      rcases hr x hx with h | h
      · rcases List.mem_cons.1 h with he | hm
        · exact Or.inr (he ▸ List.mem_cons_self _ _)
        · exact Or.inl hm
      · exact Or.inr (List.mem_cons_of_mem _ h)

theorem flatMap_keys_const (F : List String) :
    ∀ (ds : List (List (String × ℚ))), (∀ d ∈ ds, keysOf d = F) →
      ds.flatMap (fun d => keysOf d) = ds.flatMap (fun _ => F) := by
  intro ds
  induction ds with
  | nil => intro _; rfl
  | cons d rest ih =>
    intro h
    rw [List.flatMap_cons, List.flatMap_cons, h d (List.mem_cons_self _ _),
      ih (fun x hx => h x (List.mem_cons_of_mem _ hx))]

theorem pyDedup_flat_const {α : Type} (F : List String) (hnd : F.Nodup) :
    ∀ (ds : List α), ds ≠ [] →
      pyDedup (ds.flatMap (fun _ => F)) = F := by
  intro ds h
  cases ds with
  | nil => exact absurd rfl h
  | cons i rest =>
    rw [List.flatMap_cons, pyDedup]
    apply pyDedupAux_main F [] (rest.flatMap (fun _ => F)) hnd (by simp)
    intro x hx
    obtain ⟨a, _, hm⟩ := List.mem_flatMap.1 hx
    exact Or.inl hm

theorem filterMap_all_some (f : α → Option β) (g : α → β) :
    ∀ (l : List α), (∀ x ∈ l, f x = some (g x)) → l.filterMap f = l.map g := by
  intro l
  induction l with
  | nil => intro _; rfl
  | cons a as ih =>
    intro h
    rw [List.filterMap_cons, h a (List.mem_cons_self _ _),
      ih (fun x hx => h x (List.mem_cons_of_mem _ hx)), List.map_cons]

theorem cvFieldNames_mono (metrics : List String)
    (h2 : ∀ m ∈ metrics, m ∈ AVAILABLE_METRICS) :
    ∀ f ∈ cvFieldNames metrics, f ∈ cvFieldNames AVAILABLE_METRICS := by
  intro f hf
  simp only [cvFieldNames, List.mem_cons, List.mem_append, List.mem_map] at hf ⊢
  rcases hf with h | h
  · exact Or.inl h
  · rcases h with h | h
    · rcases h with h | h
      · obtain ⟨m, hm, he⟩ := h
        exact Or.inr (Or.inl (Or.inl ⟨m, h2 m hm, he⟩))
      · exact Or.inr (Or.inl (Or.inr h))
    · rcases h with h | h
      · obtain ⟨m, hm, he⟩ := h
        exact Or.inr (Or.inr (Or.inl ⟨m, h2 m hm, he⟩))
      · exact Or.inr (Or.inr (Or.inr h))

set_option maxHeartbeats 2000000 in
theorem cv_all_suffix_decide : ∀ f ∈ cvFieldNames AVAILABLE_METRICS,
    ∀ g ∈ cvFieldNames AVAILABLE_METRICS, f ≠ g ++ "_all" := by decide

theorem cvFieldNames_no_all_suffix (metrics : List String)
    (h2 : ∀ m ∈ metrics, m ∈ AVAILABLE_METRICS) :
    ∀ f ∈ cvFieldNames metrics, ∀ g ∈ cvFieldNames metrics, f ≠ g ++ "_all" :=
  fun f hf g hg =>
    cv_all_suffix_decide f (cvFieldNames_mono metrics h2 f hf) g
      (cvFieldNames_mono metrics h2 g hg)

theorem cvFolds_ok (fo : ℕ → FoldOracle) (metrics : List String)
    (h1 : metrics ≠ []) (h2 : ∀ m ∈ metrics, m ∈ AVAILABLE_METRICS)
    (h3 : metrics.Nodup) :
    ∀ is2 : List ℕ, ∃ tr, cvFolds fo metrics is2
      = (.ok (is2.map (fun i => foldRecOk (fo i) metrics)), tr) := by
  intro is2
  induction is2 with
  | nil => exact ⟨[], rfl⟩
  | cons i rest ih =>
    obtain ⟨tr, htr⟩ := ih
    refine ⟨(Eff.fit :: (metrics.map Eff.score ++ metrics.map Eff.score)) ++ tr, ?_⟩
    rw [cvFolds, foldRecord_ok (fo i) metrics h1 h2 h3]
    dsimp only
    rw [htr]
    rfl

/-- C8: for every fold count K at least 2 and every non-empty duplicate-free
supported metric list, _cross_validate succeeds, and for every per-fold field
f its returned mapping holds an f_all entry with exactly K values -- the raw
per-fold values of f in fold order -- and an unsuffixed f entry equal to the
arithmetic mean (sum divided by K) of that list. -/
theorem cross_validator_all_lists_and_means (K : ℕ) (fo : ℕ → FoldOracle)
    (metrics : List String) (hK : 2 ≤ K) (h1 : metrics ≠ [])
    (h2 : ∀ m ∈ metrics, m ∈ AVAILABLE_METRICS) (h3 : metrics.Nodup) :
    ∃ cv tr, cross_validate K fo metrics = (.ok cv, tr)
      ∧ ∀ f ∈ cvFieldNames metrics,
          List.lookup (f ++ "_all") cv
            = some (PyVal.vlist
                ((List.range K).map (fun i => foldFieldValue (fo i) metrics f)))
          ∧ ((List.range K).map (fun i => foldFieldValue (fo i) metrics f)).length = K
          ∧ List.lookup f cv
            = some (PyVal.num
                (((List.range K).map (fun i => foldFieldValue (fo i) metrics f)).sum
                  / (K : ℚ))) := by
  have hKlt : ¬ K < 2 := by omega
  obtain ⟨tr, htr⟩ := cvFolds_ok fo metrics h1 h2 h3 (List.range K)
  have hcv : cross_validate K fo metrics
      = (.ok (cv_aggregate (merge_with_identity
          ((List.range K).map (fun i => foldRecOk (fo i) metrics)))), tr) := by
    rw [cross_validate, if_neg hKlt, htr]
  have hndF := cvFieldNames_nodup metrics h2 h3
  have hkeys : ∀ d ∈ (List.range K).map (fun i => foldRecOk (fo i) metrics),
      keysOf d = cvFieldNames metrics := by
    intro d hd
    obtain ⟨i, _, rfl⟩ := List.mem_map.1 hd
    exact keysOf_foldRecOk (fo i) metrics
  have hdsne : (List.range K).map (fun i => foldRecOk (fo i) metrics) ≠ [] := by
    intro h
    rw [List.map_eq_nil_iff, List.range_eq_nil] at h
    omega
  have hlook : ∀ f ∈ cvFieldNames metrics, ∀ i : ℕ,
      List.lookup f (foldRecOk (fo i) metrics)
        = some (foldFieldValue (fo i) metrics f) := by
    intro f hf i
    have hfk : f ∈ keysOf (foldRecOk (fo i) metrics) := by
      rw [keysOf_foldRecOk]; exact hf
    obtain ⟨v, hv⟩ := lookup_mem_keys f _ hfk
    rw [hv, foldFieldValue_eq (fo i) metrics h1 h2 h3 f, hv]
    rfl
  have hmerge : merge_with_identity
      ((List.range K).map (fun i => foldRecOk (fo i) metrics))
      = (cvFieldNames metrics).map
          (fun k => (k, (List.range K).map (fun i => foldFieldValue (fo i) metrics k))) := by
    rw [merge_with_identity, flatMap_keys_const (cvFieldNames metrics) _ hkeys,
      pyDedup_flat_const (cvFieldNames metrics) hndF _ hdsne]
    apply List.map_congr_left
    intro k hk
    congr 1
    rw [List.filterMap_map]
    exact filterMap_all_some _ _ (List.range K)
      (fun i _ => hlook k hk i)
  have hndAll : ((cvFieldNames metrics).map (fun k => k ++ "_all")).Nodup :=
    hndF.map_on (fun x _ y _ h => strCancelRight h)
  have hframe : cv_aggregate (merge_with_identity
      ((List.range K).map (fun i => foldRecOk (fo i) metrics)))
      = ((cvFieldNames metrics).map
          (fun k => (k ++ "_all", PyVal.vlist
            ((List.range K).map (fun i => foldFieldValue (fo i) metrics k)))))
        ++ ((cvFieldNames metrics).map
          (fun k => (k, PyVal.num
            (((List.range K).map (fun i => foldFieldValue (fo i) metrics k)).sum
              / (((List.range K).map (fun i => foldFieldValue (fo i) metrics k)).length : ℚ))))) := by
    rw [cv_aggregate, hmerge, List.map_map, List.map_map]
    apply pyUnion_fresh
    · have hkB : keysOf ((cvFieldNames metrics).map
          ((fun p => (p.1, PyVal.num (p.2.sum / (p.2.length : ℚ))))
            ∘ (fun k => (k, (List.range K).map (fun i => foldFieldValue (fo i) metrics k)))))
          = cvFieldNames metrics := by
        simp only [keysOf, List.map_map]
        show List.map (fun k => k) (cvFieldNames metrics) = cvFieldNames metrics
        exact List.map_id _
      rw [hkB]
      exact hndF
    · intro k hk
      have hkF : k ∈ cvFieldNames metrics := by
        simpa [keysOf, List.map_map] using hk
      intro hmem
      have hmem2 : k ∈ (cvFieldNames metrics).map (fun g => g ++ "_all") := by
        simpa [keysOf, List.map_map] using hmem
      obtain ⟨g, hg, he⟩ := List.mem_map.1 hmem2
      exact cvFieldNames_no_all_suffix metrics h2 k hkF g hg he.symm
  refine ⟨_, tr, hcv, ?_⟩
  intro f hf
  rw [hframe]
  refine ⟨?_, by simp, ?_⟩
  · apply lookup_append_left
    exact lookup_map_key (fun k => k ++ "_all")
      (fun k => PyVal.vlist ((List.range K).map (fun i => foldFieldValue (fo i) metrics k)))
      (cvFieldNames metrics) hndAll f hf
  · rw [lookup_append_right]
    · have hl := lookup_map_key (fun k => k)
        (fun k => PyVal.num
          (((List.range K).map (fun i => foldFieldValue (fo i) metrics k)).sum
            / (((List.range K).map (fun i => foldFieldValue (fo i) metrics k)).length : ℚ)))
        (cvFieldNames metrics) (by simpa using hndF) f hf
      rw [hl]
      congr 2
      simp
    · intro hmem
      have hmem2 : f ∈ (cvFieldNames metrics).map (fun g => g ++ "_all") := by
        simpa [keysOf, List.map_map] using hmem
      obtain ⟨g, hg, he⟩ := List.mem_map.1 hmem2
      exact cvFieldNames_no_all_suffix metrics h2 f hf g hg he.symm

theorem cross_validator_witness :
    2 ≤ 2 ∧ (["accuracy"] : List String) ≠ [] ∧
    (∀ m ∈ (["accuracy"] : List String), m ∈ AVAILABLE_METRICS) ∧
    (["accuracy"] : List String).Nodup ∧
    (∃ cv tr, cross_validate 2 (fun _ => foldOracle0) ["accuracy"] = (.ok cv, tr)
      ∧ ∀ f ∈ cvFieldNames ["accuracy"],
          List.lookup (f ++ "_all") cv
            = some (PyVal.vlist ((List.range 2).map
                (fun _ => foldFieldValue foldOracle0 ["accuracy"] f)))
          ∧ ((List.range 2).map
              (fun _ => foldFieldValue foldOracle0 ["accuracy"] f)).length = 2
          ∧ List.lookup f cv
            = some (PyVal.num
                (((List.range 2).map
                  (fun _ => foldFieldValue foldOracle0 ["accuracy"] f)).sum / ((2 : ℕ) : ℚ)))) :=
  ⟨by decide, by decide, by decide, by decide,
   cross_validator_all_lists_and_means 2 (fun _ => foldOracle0) ["accuracy"]
     (by decide) (by decide) (by decide) (by decide)⟩

end Ubergrid
